import Mathlib

/-!
Verification development for the GCP Secret Manager emulator.

The server dispatch layer (validation, authorization check, update-mask
parsing) and the authorization permission table are translated directly from
the repository's source (`internal/server/server.go`, `internal/authz`).
The in-memory secret store (`internal/server/storage.go`) is not part of the
available sources; its operations are modelled from the specification
(sections 3, 4.1-4.3 of the design document), faithful to the behaviour
pinned down by the repository's tests.

Machine integers do not overflow in the modelled range; version ids, clocks
and offsets are `Nat`, page sizes are `Int` (proto `int32`), payloads and
resource names are `String`, and Go's nil-able `map[string]string` fields are
`Option StrMap`.
-/

/-- Lifecycle state of a secret version (proto enum `SecretVersion.State`). -/
inductive VersionState
  | enabled
  | disabled
  | destroyed
deriving DecidableEq, Repr

/-- Transport-neutral error taxonomy (gRPC status codes used by the server). -/
inductive ErrorCode
  | invalidArgument
  | notFound
  | alreadyExists
  | failedPrecondition
  | permissionDenied
  | internal
deriving DecidableEq, Repr

/-- Result of an operation: a value or a status error. -/
abbrev Res (α : Type) := Except ErrorCode α

/-- Go `map[string]string` rendered as an association list. -/
abbrev StrMap := List (String × String)

/-- One secret version: numeric id, lifecycle state, payload bytes and
creation timestamp.  Modelled from the spec: `storage.go` is not in the
sources; section 3 gives identity `(secret, version_id)`, immutable creation
time, state and payload (cleared on destroy). -/
structure Version where
  id : Nat
  state : VersionState
  data : String
  createTime : Nat
deriving DecidableEq, Repr

/-- One secret record.  Modelled from the spec: `storage.go` is not in the
sources; section 3 gives the full resource name, immutable creation time,
labels and annotation maps (nil-able, replaceable wholesale), the ordered
version collection and the monotone next-version counter. -/
structure Secret where
  name : String
  createTime : Nat
  labels : Option StrMap
  annots : Option StrMap
  versions : List Version
  nextVersion : Nat
deriving DecidableEq, Repr

/-- The in-memory store.  Modelled from the spec: `storage.go` is not in the
sources; the store owns the secret records; `clock` supplies creation
timestamps. -/
structure Storage where
  secrets : List Secret
  clock : Nat
deriving DecidableEq, Repr

/-- The store of a freshly constructed server. -/
def emptyStorage : Storage := { secrets := [], clock := 0 }

/-- Decimal digit to character. -/
def digitChar (d : Nat) : Char :=
  if d = 0 then '0' else if d = 1 then '1' else if d = 2 then '2'
  else if d = 3 then '3' else if d = 4 then '4' else if d = 5 then '5'
  else if d = 6 then '6' else if d = 7 then '7' else if d = 8 then '8'
  else '9'

/-- Character to decimal digit, `none` on a non-digit. -/
def digitVal (c : Char) : Option Nat :=
  if c = '0' then some 0 else if c = '1' then some 1 else if c = '2' then some 2
  else if c = '3' then some 3 else if c = '4' then some 4 else if c = '5' then some 5
  else if c = '6' then some 6 else if c = '7' then some 7 else if c = '8' then some 8
  else if c = '9' then some 9 else none

/-- Little-endian digit characters of `n`, with structural fuel. -/
def natToCharsRev : Nat → Nat → List Char
  | 0, _ => []
  | fuel + 1, n =>
    if n < 10 then [digitChar n]
    else digitChar (n % 10) :: natToCharsRev fuel (n / 10)

/-- Render a natural number in decimal (page tokens are stringified offsets). -/
def natToString (n : Nat) : String := String.mk ((natToCharsRev (n + 1) n).reverse)

/-- Accumulator loop of the decimal parser. -/
def parseNatGo : Nat → List Char → Option Nat
  | acc, [] => some acc
  | acc, c :: cs =>
    match digitVal c with
    | some d => parseNatGo (acc * 10 + d) cs
    | none => none

/-- Parse a non-empty decimal string. -/
def parseNat (s : String) : Option Nat :=
  match s.data with
  | [] => none
  | _ => parseNatGo 0 s.data

/-- Decode a page token: empty means offset 0, otherwise a decimal offset.
Modelled from the spec: pagination is a stable numeric offset encoded as a
string. -/
def decodeToken (s : String) : Option Nat :=
  if s = "" then some 0 else parseNat s

/-- Effective page size: 100 when the caller left `page_size` unset (zero) or
non-positive.  Modelled from the spec: default page size 100 when
unspecified/zero. -/
def effSize (pageSize : Int) : Nat :=
  if pageSize ≤ 0 then 100 else pageSize.toNat

/-- One page of `items` at `offset`: the slice and the next token (empty when
exhausted).  Modelled from the spec: an empty returned token means exhausted. -/
def pageSlice {α : Type} (items : List α) (eff offset : Nat) : List α × String :=
  ((items.drop offset).take eff,
   if offset + eff < items.length then natToString (offset + eff) else "")

/-- Offset pagination over a fixed item list.  Modelled from the spec:
pagination is a stable numeric offset encoded as a string; invalid tokens are
a caller error. -/
def paginate {α : Type} (items : List α) (pageSize : Int) (pageToken : String) :
    Res (List α × String) :=
  match decodeToken pageToken with
  | none => .error .invalidArgument
  | some offset => .ok (pageSlice items (effSize pageSize) offset)

/-- Client-side pagination loop: call `f` with the current token, append the
pages, stop on an empty next token.  `fuel` bounds the number of calls. -/
def runPaged {α : Type} (f : String → Res (List α × String)) :
    Nat → String → Res (List α)
  | 0, _ => .error .internal
  | fuel + 1, tok =>
    match f tok with
    | .error e => .error e
    | .ok (page, next) =>
      if next = "" then .ok page
      else
        match runPaged f fuel next with
        | .error e => .error e
        | .ok rest => .ok (page ++ rest)

/-- Full resource name of a secret under a project parent. -/
def secretNameOf (parent secretId : String) : String :=
  parent ++ "/secrets/" ++ secretId

/-- Full resource name of a version of a secret. -/
def versionNameOf (secretName : String) (id : Nat) : String :=
  secretName ++ "/versions/" ++ natToString id

/-- Character-level splitter on the slash separator (Go `strings.Split` with
separator `/`): empty segments are preserved. -/
def splitSlashChars : List Char → List (List Char)
  | [] => [[]]
  | c :: cs =>
    let rest := splitSlashChars cs
    if c = '/' then [] :: rest
    else
      match rest with
      | [] => [[c]]
      | g :: gs => (c :: g) :: gs

/-- Split a resource name on `/` into its segments. -/
def splitSlash (s : String) : List String :=
  (splitSlashChars s.data).map String.mk

/-- Join segments with `/` (Go `strings.Join` with separator `/`). -/
def joinSlash : List String → String
  | [] => ""
  | [s] => s
  | s :: rest => s ++ "/" ++ joinSlash rest

/-- Split a version resource name into the owning secret name and the version
segment, validating the structural markers.  Modelled from the spec:
section 4.1, segment count and the literal `projects`/`secrets`/`versions`
markers at the expected positions. -/
def parseVersionName (name : String) : Option (String × String) :=
  let parts := splitSlash name
  if parts.length = 6 && parts.getD 0 "" == "projects" && parts.getD 2 "" == "secrets"
      && parts.getD 4 "" == "versions"
  then some (joinSlash (parts.take 4), parts.getD 5 "")
  else none

/-- Source `authz.NormalizeSecretResource`: truncate a version-level path to
its owning secret path; return the input unchanged when it cannot be
normalized. -/
def NormalizeSecretResource (name : String) : String :=
  let parts := splitSlash name
  if 4 ≤ parts.length && parts.getD 0 "" == "projects" && parts.getD 2 "" == "secrets"
  then joinSlash (parts.take 4)
  else name

/-- Source `authz.NormalizeSecretVersionResource`: keep the full path for
version-specific permissions. -/
def NormalizeSecretVersionResource (name : String) : String := name

/-- Source `authz.NormalizeParentForCreate`: the parent resource is used
as-is for create operations. -/
def NormalizeParentForCreate (parent : String) : String := parent

/-- Find a secret by full resource name. -/
def lookupSecret (st : Storage) (name : String) : Option Secret :=
  st.secrets.find? (fun s => s.name == name)

/-- Find a version by numeric id. -/
def findVersion (vs : List Version) (i : Nat) : Option Version :=
  vs.find? (fun v => v.id == i)

/-- Resolve the `latest` alias: the ENABLED version with the numerically
highest id, `none` when the secret has no ENABLED version.  Modelled from the
spec: the latest resolution algorithm of section 4.3. -/
def latestEnabled : List Version → Option Version
  | [] => none
  | v :: vs =>
    match latestEnabled vs with
    | none => if v.state = .enabled then some v else none
    | some w =>
      if v.state = .enabled then (if w.id < v.id then some v else some w)
      else some w

/-- Resolve a version segment against a secret: `latest` via
`latestEnabled`, otherwise a decimal id looked up in the version collection. -/
def resolveVersion (sec : Secret) (seg : String) : Option Version :=
  if seg == "latest" then latestEnabled sec.versions
  else
    match parseNat seg with
    | some i => findVersion sec.versions i
    | none => none

/-- Storage CreateSecret.  Modelled from the spec: fails AlreadyExists when
`(project, secret_id)` is taken, InvalidArgument when project or secret id is
empty; sets the creation timestamp, stores the metadata verbatim, initializes
an empty version set and the counter at 0. -/
def Storage.CreateSecret (st : Storage) (parent secretId : String)
    (labels annots : Option StrMap) : Res (Secret × Storage) :=
  if parent = "" || secretId = "" then .error .invalidArgument
  else
    let name := secretNameOf parent secretId
    match lookupSecret st name with
    | some _ => .error .alreadyExists
    | none =>
      let sec : Secret :=
        { name := name, createTime := st.clock, labels := labels,
          annots := annots, versions := [], nextVersion := 0 }
      .ok (sec, { secrets := st.secrets ++ [sec], clock := st.clock + 1 })

/-- Storage GetSecret.  Modelled from the spec: the secret or NotFound. -/
def Storage.GetSecret (st : Storage) (name : String) : Res Secret :=
  match lookupSecret st name with
  | some sec => .ok sec
  | none => .error .notFound

/-- Storage UpdateSecret.  Modelled from the spec: each field for which the
dispatcher passed a (non-nil) map is replaced wholesale, the others are left
untouched; versions, name and creation time never change; NotFound when the
secret is absent. -/
def Storage.UpdateSecret (st : Storage) (name : String)
    (labels annots : Option StrMap) : Res (Secret × Storage) :=
  match lookupSecret st name with
  | none => .error .notFound
  | some sec =>
    let sec2 : Secret :=
      { sec with labels := labels.or sec.labels, annots := annots.or sec.annots }
    .ok (sec2,
      { st with secrets := st.secrets.map (fun s => if s.name = name then sec2 else s) })

/-- Storage DeleteSecret.  Modelled from the spec: removes the secret and all
its versions atomically, NotFound when absent. -/
def Storage.DeleteSecret (st : Storage) (name : String) : Res Storage :=
  match lookupSecret st name with
  | none => .error .notFound
  | some _ =>
    .ok { st with secrets := st.secrets.filter (fun s => !(s.name == name)) }

/-- Secrets belonging to a project parent. -/
def secretsOfParent (st : Storage) (parent : String) : List Secret :=
  st.secrets.filter (fun s => (parent ++ "/secrets/").isPrefixOf s.name)

/-- Deterministic listing order: lexicographic by secret name.  Modelled from
the spec: enumeration order must be deterministic across calls for a fixed
snapshot, lexicographic by secret id. -/
def sortSecrets (l : List Secret) : List Secret :=
  l.insertionSort (fun a b => a.name ≤ b.name)

/-- Storage ListSecrets.  Modelled from the spec: deterministic lexicographic
enumeration of the project's secrets with offset pagination. -/
def Storage.ListSecrets (st : Storage) (parent : String) (pageSize : Int)
    (pageToken : String) : Res (List Secret × String) :=
  paginate (sortSecrets (secretsOfParent st parent)) pageSize pageToken

/-- Storage AddSecretVersion.  Modelled from the spec: assigns the next
integer id (counter strictly increasing, never reused), state ENABLED,
NotFound when the secret is absent. -/
def Storage.AddSecretVersion (st : Storage) (parent : String) (payload : String) :
    Res (Version × Storage) :=
  match lookupSecret st parent with
  | none => .error .notFound
  | some sec =>
    let vid := sec.nextVersion + 1
    let v : Version :=
      { id := vid, state := .enabled, data := payload, createTime := st.clock }
    let sec2 : Secret := { sec with versions := sec.versions ++ [v], nextVersion := vid }
    .ok (v,
      { secrets := st.secrets.map (fun s => if s.name = parent then sec2 else s),
        clock := st.clock + 1 })

/-- Storage GetSecretVersion.  Modelled from the spec: version metadata,
supporting the `latest` alias; NotFound when the secret or the resolved
version is absent; malformed names are a caller error. -/
def Storage.GetSecretVersion (st : Storage) (name : String) : Res Version :=
  match parseVersionName name with
  | none => .error .invalidArgument
  | some (sname, seg) =>
    match lookupSecret st sname with
    | none => .error .notFound
    | some sec =>
      match resolveVersion sec seg with
      | none => .error .notFound
      | some v => .ok v

/-- Storage AccessSecretVersion.  Modelled from the spec: the payload of the
resolved version, which must be ENABLED; DISABLED/DESTROYED yield
FailedPrecondition, an unresolved version yields NotFound. -/
def Storage.AccessSecretVersion (st : Storage) (name : String) :
    Res (String × String) :=
  match parseVersionName name with
  | none => .error .invalidArgument
  | some (sname, seg) =>
    match lookupSecret st sname with
    | none => .error .notFound
    | some sec =>
      match resolveVersion sec seg with
      | none => .error .notFound
      | some v =>
        if v.state = .enabled then .ok (versionNameOf sname v.id, v.data)
        else .error .failedPrecondition

/-- Parse the ListSecretVersions filter.  Modelled from the spec: syntax
`state:ENABLED|DISABLED|DESTROYED`; an absent filter selects all states. -/
def parseFilter (fil : String) : Res (Option VersionState) :=
  if fil = "" then .ok none
  else if fil = "state:ENABLED" then .ok (some .enabled)
  else if fil = "state:DISABLED" then .ok (some .disabled)
  else if fil = "state:DESTROYED" then .ok (some .destroyed)
  else .error .invalidArgument

/-- Does a version pass the (parsed) state filter? -/
def versionMatches (flt : Option VersionState) (v : Version) : Bool :=
  match flt with
  | none => true
  | some s => v.state == s

/-- Storage ListSecretVersions.  Modelled from the spec: versions of the
secret in ascending id order, state filter applied before pagination,
NotFound when the secret is absent. -/
def Storage.ListSecretVersions (st : Storage) (parent : String) (pageSize : Int)
    (pageToken : String) (fil : String) : Res (List Version × String) :=
  match lookupSecret st parent with
  | none => .error .notFound
  | some sec =>
    match parseFilter fil with
    | .error e => .error e
    | .ok flt =>
      paginate (sec.versions.filter (fun v => versionMatches flt v)) pageSize pageToken

/-- Set a version's state, clearing the payload when destroying. -/
def setVersionState (newState : VersionState) (clearData : Bool) (v : Version) : Version :=
  { v with state := newState, data := if clearData then "" else v.data }

/-- Apply `f` to the version with id `vid` of the secret named `sname`. -/
def updateVersionIn (st : Storage) (sname : String) (vid : Nat)
    (f : Version → Version) : Storage :=
  { st with
    secrets := st.secrets.map (fun sec =>
      if sec.name = sname then
        { sec with versions := sec.versions.map (fun v => if v.id = vid then f v else v) }
      else sec) }

/-- Storage EnableSecretVersion.  Modelled from the spec state machine:
DISABLED→ENABLED, idempotent on ENABLED, rejected with FailedPrecondition on
DESTROYED; NotFound when the version is absent. -/
def Storage.EnableSecretVersion (st : Storage) (name : String) :
    Res (Version × Storage) :=
  match parseVersionName name with
  | none => .error .invalidArgument
  | some (sname, seg) =>
    match lookupSecret st sname with
    | none => .error .notFound
    | some sec =>
      match (parseNat seg).bind (fun i => findVersion sec.versions i) with
      | none => .error .notFound
      | some v =>
        if v.state = .destroyed then .error .failedPrecondition
        else
          .ok (setVersionState .enabled false v,
               updateVersionIn st sname v.id (setVersionState .enabled false))

/-- Storage DisableSecretVersion.  Modelled from the spec state machine:
ENABLED→DISABLED, idempotent on DISABLED, rejected with FailedPrecondition on
DESTROYED; NotFound when the version is absent. -/
def Storage.DisableSecretVersion (st : Storage) (name : String) :
    Res (Version × Storage) :=
  match parseVersionName name with
  | none => .error .invalidArgument
  | some (sname, seg) =>
    match lookupSecret st sname with
    | none => .error .notFound
    | some sec =>
      match (parseNat seg).bind (fun i => findVersion sec.versions i) with
      | none => .error .notFound
      | some v =>
        if v.state = .destroyed then .error .failedPrecondition
        else
          .ok (setVersionState .disabled false v,
               updateVersionIn st sname v.id (setVersionState .disabled false))

/-- Storage DestroySecretVersion.  Modelled from the spec state machine:
ENABLED/DISABLED→DESTROYED with the payload cleared; destroying an
already-DESTROYED version is an idempotent no-op success; NotFound when the
version is absent. -/
def Storage.DestroySecretVersion (st : Storage) (name : String) :
    Res (Version × Storage) :=
  match parseVersionName name with
  | none => .error .invalidArgument
  | some (sname, seg) =>
    match lookupSecret st sname with
    | none => .error .notFound
    | some sec =>
      match (parseNat seg).bind (fun i => findVersion sec.versions i) with
      | none => .error .notFound
      | some v =>
        if v.state = .destroyed then .ok (v, st)
        else
          .ok (setVersionState .destroyed true v,
               updateVersionIn st sname v.id (setVersionState .destroyed true))

/-- Whether a permission is checked against the resource itself or its parent
(source `authz.ResourceTarget`). -/
inductive ResourceTarget
  | self
  | parent
deriving DecidableEq, Repr

/-- Source `authz.PermissionCheck`: the permission string and the resource
target for an operation. -/
structure PermissionCheck where
  permission : String
  target : ResourceTarget
deriving DecidableEq, Repr

/-- Source `authz.OperationPermissions`: the table mapping Secret Manager
operations to their required permissions. -/
def OperationPermissions : List (String × PermissionCheck) :=
  [("CreateSecret", { permission := "secretmanager.secrets.create", target := .parent }),
   ("GetSecret", { permission := "secretmanager.secrets.get", target := .self }),
   ("UpdateSecret", { permission := "secretmanager.secrets.update", target := .self }),
   ("DeleteSecret", { permission := "secretmanager.secrets.delete", target := .self }),
   ("ListSecrets", { permission := "secretmanager.secrets.list", target := .parent }),
   ("AddSecretVersion", { permission := "secretmanager.versions.add", target := .self }),
   ("AccessSecretVersion", { permission := "secretmanager.versions.access", target := .self }),
   ("GetSecretVersion", { permission := "secretmanager.versions.get", target := .self }),
   ("ListSecretVersions", { permission := "secretmanager.versions.list", target := .self }),
   ("EnableSecretVersion", { permission := "secretmanager.versions.enable", target := .self }),
   ("DisableSecretVersion", { permission := "secretmanager.versions.disable", target := .self }),
   ("DestroySecretVersion", { permission := "secretmanager.versions.destroy", target := .self })]

/-- Source `authz.GetPermission`: the permission check for an operation, if
the operation is in the table. -/
def GetPermission (operation : String) : Option PermissionCheck :=
  (OperationPermissions.find? (fun p => p.1 == operation)).map (fun p => p.2)

/-- Outcome of one call to the external IAM policy oracle. -/
inductive OracleResult
  | allowed
  | denied
  | failed
deriving DecidableEq, Repr

/-- The connected IAM client: a synchronous check of
(principal, resource, permission). -/
structure IamClient where
  check : String → String → String → OracleResult

/-- The emulator server: the storage and the optional IAM client
(source `server.Server`; the client is nil when IAM is disabled). -/
structure Server where
  storage : Storage
  iamClient : Option IamClient

/-- Request context carrying the caller identity extracted from metadata. -/
structure Ctx where
  principal : String

/-- Source `Server.checkPermission`: allow when the IAM client is nil or the
operation is not in the permission table; otherwise consult the oracle,
mapping an oracle error to Internal and a negative answer to
PermissionDenied. -/
def checkPermission (srv : Server) (ctx : Ctx) (operation resource : String) :
    Res Unit :=
  match srv.iamClient with
  | none => .ok ()
  | some client =>
    match GetPermission operation with
    | none => .ok ()
    | some permCheck =>
      match client.check ctx.principal resource permCheck.permission with
      | .failed => .error .internal
      | .denied => .error .permissionDenied
      | .allowed => .ok ()

/-- Proto `Secret` message as received in requests: resource name and the
nil-able label and annotation maps. -/
structure SecretPB where
  name : String
  labels : Option StrMap
  annots : Option StrMap
deriving DecidableEq, Repr

/-- Proto `CreateSecretRequest`. -/
structure CreateSecretRequest where
  parent : String
  secretId : String
  secret : Option SecretPB
deriving DecidableEq, Repr

/-- Proto `GetSecretRequest`. -/
structure GetSecretRequest where
  name : String
deriving DecidableEq, Repr

/-- Proto `UpdateSecretRequest`: the secret carrying new field values and the
nil-able field mask. -/
structure UpdateSecretRequest where
  secret : Option SecretPB
  updateMask : Option (List String)
deriving DecidableEq, Repr

/-- Proto `DeleteSecretRequest`. -/
structure DeleteSecretRequest where
  name : String
deriving DecidableEq, Repr

/-- Proto `ListSecretsRequest`. -/
structure ListSecretsRequest where
  parent : String
  pageSize : Int
  pageToken : String
deriving DecidableEq, Repr

/-- Proto `AddSecretVersionRequest`: the payload is nil-able. -/
structure AddSecretVersionRequest where
  parent : String
  payload : Option String
deriving DecidableEq, Repr

/-- Proto `GetSecretVersionRequest`. -/
structure GetSecretVersionRequest where
  name : String
deriving DecidableEq, Repr

/-- Proto `AccessSecretVersionRequest`. -/
structure AccessSecretVersionRequest where
  name : String
deriving DecidableEq, Repr

/-- Proto `ListSecretVersionsRequest`. -/
structure ListSecretVersionsRequest where
  parent : String
  pageSize : Int
  pageToken : String
  filter : String
deriving DecidableEq, Repr

/-- Proto `EnableSecretVersionRequest`. -/
structure EnableSecretVersionRequest where
  name : String
deriving DecidableEq, Repr

/-- Proto `DisableSecretVersionRequest`. -/
structure DisableSecretVersionRequest where
  name : String
deriving DecidableEq, Repr

/-- Proto `DestroySecretVersionRequest`. -/
structure DestroySecretVersionRequest where
  name : String
deriving DecidableEq, Repr

/-- Source `Server.UpdateSecret` mask loop: walk the mask paths, picking up
the request's label map on path `labels` and its annotation map on path
`annotations`, silently ignoring unsupported paths. -/
def parseUpdateMask (paths : List String) (secLabels secAnnots : Option StrMap) :
    Option StrMap × Option StrMap :=
  paths.foldl
    (fun acc path =>
      if path = "labels" then (secLabels, acc.2)
      else if path = "annotations" then (acc.1, secAnnots)
      else acc)
    (none, none)

/-- Source `Server.ListSecrets`: parent required, permission `ListSecrets`
against the parent, then the store call. -/
def Server.ListSecrets (srv : Server) (ctx : Ctx) (req : ListSecretsRequest) :
    Res (List Secret × String) :=
  if req.parent = "" then .error .invalidArgument
  else
    match checkPermission srv ctx "ListSecrets" req.parent with
    | .error e => .error e
    | .ok _ => Storage.ListSecrets srv.storage req.parent req.pageSize req.pageToken

/-- Source `Server.CreateSecret`: parent, secret id and secret message
required, permission `CreateSecret` against the normalized parent, then the
store call. -/
def Server.CreateSecret (srv : Server) (ctx : Ctx) (req : CreateSecretRequest) :
    Res (Secret × Storage) :=
  if req.parent = "" then .error .invalidArgument
  else if req.secretId = "" then .error .invalidArgument
  else
    match req.secret with
    | none => .error .invalidArgument
    | some secPB =>
      match checkPermission srv ctx "CreateSecret" (NormalizeParentForCreate req.parent) with
      | .error e => .error e
      | .ok _ =>
        Storage.CreateSecret srv.storage req.parent req.secretId secPB.labels secPB.annots

/-- Source `Server.GetSecret`: name required, permission `GetSecret` against
the normalized secret, then the store call. -/
def Server.GetSecret (srv : Server) (ctx : Ctx) (req : GetSecretRequest) :
    Res Secret :=
  if req.name = "" then .error .invalidArgument
  else
    match checkPermission srv ctx "GetSecret" (NormalizeSecretResource req.name) with
    | .error e => .error e
    | .ok _ => Storage.GetSecret srv.storage req.name

/-- Source `Server.UpdateSecret`: secret and its name required, permission
`UpdateSecret` against the normalized secret, then the update-mask
requirement check, mask parsing and the store call. -/
def Server.UpdateSecret (srv : Server) (ctx : Ctx) (req : UpdateSecretRequest) :
    Res (Secret × Storage) :=
  match req.secret with
  | none => .error .invalidArgument
  | some secPB =>
    if secPB.name = "" then .error .invalidArgument
    else
      match checkPermission srv ctx "UpdateSecret" (NormalizeSecretResource secPB.name) with
      | .error e => .error e
      | .ok _ =>
        match req.updateMask with
        | none => .error .invalidArgument
        | some mask =>
          let lm := parseUpdateMask mask secPB.labels secPB.annots
          Storage.UpdateSecret srv.storage secPB.name lm.1 lm.2

/-- Source `Server.DeleteSecret`: name required, permission `DeleteSecret`
against the normalized secret, then the store call. -/
def Server.DeleteSecret (srv : Server) (ctx : Ctx) (req : DeleteSecretRequest) :
    Res Storage :=
  if req.name = "" then .error .invalidArgument
  else
    match checkPermission srv ctx "DeleteSecret" (NormalizeSecretResource req.name) with
    | .error e => .error e
    | .ok _ => Storage.DeleteSecret srv.storage req.name

/-- Source `Server.AddSecretVersion`: parent and payload required,
permission `AddSecretVersion` against the normalized secret, then the store
call. -/
def Server.AddSecretVersion (srv : Server) (ctx : Ctx) (req : AddSecretVersionRequest) :
    Res (Version × Storage) :=
  if req.parent = "" then .error .invalidArgument
  else
    match req.payload with
    | none => .error .invalidArgument
    | some payload =>
      match checkPermission srv ctx "AddSecretVersion" (NormalizeSecretResource req.parent) with
      | .error e => .error e
      | .ok _ => Storage.AddSecretVersion srv.storage req.parent payload

/-- Source `Server.GetSecretVersion`: name required, permission
`GetSecretVersion` against the full version resource, then the store call. -/
def Server.GetSecretVersion (srv : Server) (ctx : Ctx) (req : GetSecretVersionRequest) :
    Res Version :=
  if req.name = "" then .error .invalidArgument
  else
    match checkPermission srv ctx "GetSecretVersion" (NormalizeSecretVersionResource req.name) with
    | .error e => .error e
    | .ok _ => Storage.GetSecretVersion srv.storage req.name

/-- Source `Server.AccessSecretVersion`: name required, permission
`AccessSecretVersion` against the full version resource, then the store
call. -/
def Server.AccessSecretVersion (srv : Server) (ctx : Ctx)
    (req : AccessSecretVersionRequest) : Res (String × String) :=
  if req.name = "" then .error .invalidArgument
  else
    match checkPermission srv ctx "AccessSecretVersion" (NormalizeSecretVersionResource req.name) with
    | .error e => .error e
    | .ok _ => Storage.AccessSecretVersion srv.storage req.name

/-- Source `Server.ListSecretVersions`: parent required, permission
`ListSecretVersions` against the normalized secret, then the store call with
the filter. -/
def Server.ListSecretVersions (srv : Server) (ctx : Ctx)
    (req : ListSecretVersionsRequest) : Res (List Version × String) :=
  if req.parent = "" then .error .invalidArgument
  else
    match checkPermission srv ctx "ListSecretVersions" (NormalizeSecretResource req.parent) with
    | .error e => .error e
    | .ok _ =>
      Storage.ListSecretVersions srv.storage req.parent req.pageSize req.pageToken req.filter

/-- Source `Server.EnableSecretVersion`: name required, permission
`EnableSecretVersion` against the full version resource, then the store
call. -/
def Server.EnableSecretVersion (srv : Server) (ctx : Ctx)
    (req : EnableSecretVersionRequest) : Res (Version × Storage) :=
  if req.name = "" then .error .invalidArgument
  else
    match checkPermission srv ctx "EnableSecretVersion" (NormalizeSecretVersionResource req.name) with
    | .error e => .error e
    | .ok _ => Storage.EnableSecretVersion srv.storage req.name

/-- Source `Server.DisableSecretVersion`: name required, permission
`DisableSecretVersion` against the full version resource, then the store
call. -/
def Server.DisableSecretVersion (srv : Server) (ctx : Ctx)
    (req : DisableSecretVersionRequest) : Res (Version × Storage) :=
  if req.name = "" then .error .invalidArgument
  else
    match checkPermission srv ctx "DisableSecretVersion" (NormalizeSecretVersionResource req.name) with
    | .error e => .error e
    | .ok _ => Storage.DisableSecretVersion srv.storage req.name

/-- Source `Server.DestroySecretVersion`: name required, permission
`DestroySecretVersion` against the full version resource, then the store
call (the etag is not enforced). -/
def Server.DestroySecretVersion (srv : Server) (ctx : Ctx)
    (req : DestroySecretVersionRequest) : Res (Version × Storage) :=
  if req.name = "" then .error .invalidArgument
  else
    match checkPermission srv ctx "DestroySecretVersion" (NormalizeSecretVersionResource req.name) with
    | .error e => .error e
    | .ok _ => Storage.DestroySecretVersion srv.storage req.name

/-- Version-lifecycle operations of the section 4.2 state machine. -/
inductive VOp
  | enable (name : String)
  | disable (name : String)
  | destroy (name : String)

/-- Apply one lifecycle operation to the store; a failed operation leaves the
store unchanged. -/
def applyVOp (st : Storage) : VOp → Storage
  | .enable n =>
    match Storage.EnableSecretVersion st n with
    | .ok (_, st2) => st2
    | .error _ => st
  | .disable n =>
    match Storage.DisableSecretVersion st n with
    | .ok (_, st2) => st2
    | .error _ => st
  | .destroy n =>
    match Storage.DestroySecretVersion st n with
    | .ok (_, st2) => st2
    | .error _ => st

/-- Apply a sequence of lifecycle operations. -/
def applyVOps (st : Storage) (ops : List VOp) : Storage :=
  ops.foldl applyVOp st

/-- State of the version with id `vid` of the secret named `sname`, when both
exist. -/
def versionStateAt (st : Storage) (sname : String) (vid : Nat) : Option VersionState :=
  match lookupSecret st sname with
  | none => none
  | some sec => (findVersion sec.versions vid).map (fun v => v.state)

/-- The `(project, secret_id)` uniqueness invariant: no two stored secrets
share a full resource name. -/
def uniqueNames (st : Storage) : Prop :=
  (st.secrets.map Secret.name).Nodup

/-- Stores reachable from the fresh store through the mutating storage
operations. -/
inductive Reachable : Storage → Prop
  | empty : Reachable emptyStorage
  | create (st : Storage) (p sid : String) (lab ann : Option StrMap)
      (sec : Secret) (st2 : Storage) :
      Reachable st → Storage.CreateSecret st p sid lab ann = .ok (sec, st2) →
      Reachable st2
  | update (st : Storage) (n : String) (lab ann : Option StrMap)
      (sec : Secret) (st2 : Storage) :
      Reachable st → Storage.UpdateSecret st n lab ann = .ok (sec, st2) →
      Reachable st2
  | del (st : Storage) (n : String) (st2 : Storage) :
      Reachable st → Storage.DeleteSecret st n = .ok st2 → Reachable st2
  | addVersion (st : Storage) (n payload : String) (v : Version) (st2 : Storage) :
      Reachable st → Storage.AddSecretVersion st n payload = .ok (v, st2) →
      Reachable st2
  | enable (st : Storage) (n : String) (v : Version) (st2 : Storage) :
      Reachable st → Storage.EnableSecretVersion st n = .ok (v, st2) →
      Reachable st2
  | disable (st : Storage) (n : String) (v : Version) (st2 : Storage) :
      Reachable st → Storage.DisableSecretVersion st n = .ok (v, st2) →
      Reachable st2
  | destroy (st : Storage) (n : String) (v : Version) (st2 : Storage) :
      Reachable st → Storage.DestroySecretVersion st n = .ok (v, st2) →
      Reachable st2

/-- Filter string for a version state, as accepted by ListSecretVersions. -/
def filterStringOf : VersionState → String
  | .enabled => "state:ENABLED"
  | .disabled => "state:DISABLED"
  | .destroyed => "state:DESTROYED"

/-- Concrete secret used to exercise the latest-resolution algorithm:
versions 1 (ENABLED), 2 (DISABLED), 3 (ENABLED). -/
def c1sec : Secret :=
  { name := "projects/p/secrets/s", createTime := 0, labels := none, annots := none,
    versions :=
      [{ id := 1, state := .enabled, data := "d1", createTime := 0 },
       { id := 2, state := .disabled, data := "d2", createTime := 1 },
       { id := 3, state := .enabled, data := "d3", createTime := 2 }],
    nextVersion := 3 }

/-- Concrete store holding `c1sec`. -/
def c1st : Storage := { secrets := [c1sec], clock := 3 }

/-- Concrete secret `a` of project `q`, without versions. -/
def c2secA : Secret :=
  { name := "projects/q/secrets/a", createTime := 0, labels := none, annots := none,
    versions := [], nextVersion := 0 }

/-- Concrete secret `b` of project `q`, with one ENABLED version. -/
def c2secB : Secret :=
  { name := "projects/q/secrets/b", createTime := 1, labels := none, annots := none,
    versions := [{ id := 1, state := .enabled, data := "payload", createTime := 2 }],
    nextVersion := 1 }

/-- Concrete store holding the project-`q` secrets in one insertion order. -/
def c2st : Storage := { secrets := [c2secB, c2secA], clock := 3 }

/-- The same secrets as `c2st` in the other insertion order. -/
def c3st : Storage := { secrets := [c2secA, c2secB], clock := 3 }

/-- Concrete DESTROYED version. -/
def c4ver : Version := { id := 1, state := .destroyed, data := "", createTime := 0 }

/-- Concrete secret holding only the destroyed version `c4ver`. -/
def c4sec : Secret :=
  { name := "projects/p/secrets/d", createTime := 0, labels := none, annots := none,
    versions := [c4ver], nextVersion := 1 }

/-- Concrete store holding `c4sec`. -/
def c4st : Storage := { secrets := [c4sec], clock := 2 }

/-- Concrete store reached from the fresh store by one CreateSecret. -/
def c7st : Storage := { secrets := [c2secA], clock := 1 }

/-- Concrete secret with labels and annotation maps set, for UpdateSecret. -/
def c8sec : Secret :=
  { name := "projects/p/secrets/u", createTime := 0,
    labels := some [("env", "dev")], annots := some [("note", "original")],
    versions := [], nextVersion := 0 }

/-- Concrete store holding `c8sec`. -/
def c8st : Storage := { secrets := [c8sec], clock := 1 }

/-- Server over `c8st` with authorization disabled (nil IAM client). -/
def c8srv : Server := { storage := c8st, iamClient := none }

/-- Request context with an empty principal. -/
def c8ctx : Ctx := { principal := "" }

/-- Proto secret carrying no label map (Go nil) and no annotation map. -/
def c8secPB : SecretPB :=
  { name := "projects/p/secrets/u", labels := none, annots := none }

/-- UpdateSecret request whose mask names `labels` while the request supplies
no label map. -/
def c8req : UpdateSecretRequest :=
  { secret := some c8secPB, updateMask := some ["labels"] }

/-- IAM client whose oracle denies every request. -/
def denyClient : IamClient := { check := fun _ _ _ => .denied }

/-- Server over `c8st` with a connected, always-denying IAM client. -/
def c9srv : Server := { storage := c8st, iamClient := some denyClient }

/-! ### Helper lemmas: decimal tokens -/

theorem digitVal_digitChar {d : Nat} (h : d < 10) : digitVal (digitChar d) = some d := by
  interval_cases d <;> decide

theorem parseNatGo_append (l1 l2 : List Char) (acc : Nat) :
    parseNatGo acc (l1 ++ l2) = (parseNatGo acc l1).bind (fun a => parseNatGo a l2) := by
  induction l1 generalizing acc with
  | nil => simp [parseNatGo]
  | cons c cs ih =>
    simp only [List.cons_append, parseNatGo]
    cases digitVal c with
    | none => simp
    | some d => simp [ih]

theorem natToCharsRev_ne_nil (fuel n : Nat) (h : 0 < fuel) :
    natToCharsRev fuel n ≠ [] := by
  cases fuel with
  | zero => omega
  | succ f =>
    simp only [natToCharsRev]
    by_cases hn : n < 10 <;> simp [hn]

theorem parseNatGo_natToCharsRev (fuel : Nat) :
    ∀ n acc, n < fuel →
      parseNatGo acc ((natToCharsRev fuel n).reverse) =
        some (acc * 10 ^ (natToCharsRev fuel n).length + n) := by
  induction fuel with
  | zero => intro n acc h; omega
  | succ f ih =>
    intro n acc h
    by_cases hn : n < 10
    · simp only [natToCharsRev, if_pos hn, List.reverse_singleton, parseNatGo,
        digitVal_digitChar hn, List.length_singleton]
      norm_num
    · have hd : n % 10 < 10 := Nat.mod_lt _ (by norm_num)
      have hrec : n / 10 < f := by omega
      simp only [natToCharsRev, if_neg hn, List.reverse_cons, parseNatGo_append,
        ih (n / 10) acc hrec]
      simp only [parseNatGo, digitVal_digitChar hd, List.length_cons]
      have hmod : (acc * 10 ^ (natToCharsRev f (n / 10)).length + n / 10) * 10 + n % 10 =
          acc * 10 ^ ((natToCharsRev f (n / 10)).length + 1) + n := by
        have := Nat.div_add_mod n 10
        ring_nf
        omega
      simpa using hmod

theorem parseNat_natToString (n : Nat) : parseNat (natToString n) = some n := by
  have hne : natToCharsRev (n + 1) n ≠ [] := natToCharsRev_ne_nil _ _ (Nat.succ_pos n)
  have hdata : (natToString n).data = (natToCharsRev (n + 1) n).reverse := rfl
  have hparse := parseNatGo_natToCharsRev (n + 1) n 0 (Nat.lt_succ_self n)
  simp only [parseNat, hdata]
  cases hrev : (natToCharsRev (n + 1) n).reverse with
  | nil => exact absurd (List.reverse_eq_nil_iff.mp hrev) hne
  | cons c cs =>
    rw [hrev] at hparse
    simpa using hparse

theorem natToString_ne_empty (n : Nat) : natToString n ≠ "" := by
  intro h
  have hdata : (natToString n).data = (natToCharsRev (n + 1) n).reverse := rfl
  rw [h] at hdata
  have : natToCharsRev (n + 1) n = [] := by
    simpa using hdata.symm
  exact natToCharsRev_ne_nil _ _ (Nat.succ_pos n) this

theorem decodeToken_natToString (n : Nat) : decodeToken (natToString n) = some n := by
  simp [decodeToken, natToString_ne_empty n, parseNat_natToString n]

/-! ### Helper lemmas: pagination -/

theorem effSize_pos (ps : Int) : 1 ≤ effSize ps := by
  unfold effSize
  by_cases h : ps ≤ 0
  · simp [h]
  · simp only [if_neg h]
    omega

theorem pageSlice_snd_empty_iff {α : Type} (items : List α) (e o : Nat) :
    (pageSlice items e o).2 = "" ↔ items.length ≤ o + e := by
  unfold pageSlice
  by_cases h : o + e < items.length
  · simp only [if_pos h]
    constructor
    · intro hc; exact absurd hc (natToString_ne_empty _)
    · intro hc; exact absurd hc (by omega)
  · simp only [if_neg h]
    constructor
    · intro _; omega
    · intro _; trivial

theorem runPaged_paginate {α : Type} (items : List α) (ps : Int) :
    ∀ (fuel : Nat) (tok : String) (offset : Nat),
      decodeToken tok = some offset →
      items.length ≤ offset + fuel * effSize ps →
      1 ≤ fuel →
      runPaged (fun t => paginate items ps t) fuel tok = .ok (items.drop offset) := by
  intro fuel
  induction fuel with
  | zero => intro tok offset _ _ hf; omega
  | succ f ih =>
    intro tok offset htok hlen _
    have hpag : paginate items ps tok = .ok (pageSlice items (effSize ps) offset) := by
      simp [paginate, htok]
    simp only [runPaged, hpag]
    by_cases hdone : items.length ≤ offset + effSize ps
    · have hnext : (pageSlice items (effSize ps) offset).2 = "" :=
        (pageSlice_snd_empty_iff items _ offset).mpr hdone
      have hfst : (pageSlice items (effSize ps) offset).1 = items.drop offset := by
        unfold pageSlice
        have : (items.drop offset).length ≤ effSize ps := by
          simp only [List.length_drop]; omega
        simp [List.take_of_length_le this]
      rw [hnext]
      simp [hfst]
    · have hlt : offset + effSize ps < items.length := by omega
      have hnext : (pageSlice items (effSize ps) offset).2 =
          natToString (offset + effSize ps) := by
        unfold pageSlice
        simp [hlt]
      rw [hnext]
      have hne := natToString_ne_empty (offset + effSize ps)
      simp only [if_neg hne]
      have hf1 : 1 ≤ f := by
        by_contra hle
        have hf0 : f = 0 := by omega
        rw [hf0] at hlen
        simp at hlen
        omega
      have hrest := ih (natToString (offset + effSize ps)) (offset + effSize ps)
        (decodeToken_natToString _) (by
          have : items.length ≤ offset + (f + 1) * effSize ps := hlen
          have hexp : offset + (f + 1) * effSize ps
              = (offset + effSize ps) + f * effSize ps := by ring
          omega) hf1
      rw [hrest]
      have hfin : (pageSlice items (effSize ps) offset).1
          ++ items.drop (offset + effSize ps) = items.drop offset := by
        show (items.drop offset).take (effSize ps)
          ++ items.drop (offset + effSize ps) = items.drop offset
        have h1 : items.drop (offset + effSize ps)
            = (items.drop offset).drop (effSize ps) := by
          rw [List.drop_drop]
          try congr 1
          try omega
        rw [h1, List.take_append_drop]
      simp [hfin]

theorem runPaged_paginate_all {α : Type} (items : List α) (ps : Int) :
    runPaged (fun t => paginate items ps t) (items.length + 1) "" = .ok items := by
  have h := runPaged_paginate items ps (items.length + 1) "" 0 (by simp [decodeToken])
    (by
      have he := effSize_pos ps
      have : items.length + 1 ≤ (items.length + 1) * effSize ps :=
        Nat.le_mul_of_pos_right _ (by omega)
      omega)
    (by omega)
  simpa using h

/-! ### Helper lemmas: latest resolution -/

theorem latestEnabled_mem : ∀ {vs : List Version} {v : Version},
    latestEnabled vs = some v → v ∈ vs := by
  intro vs
  induction vs with
  | nil => intro v h; simp [latestEnabled] at h
  | cons a l ih =>
    intro v h
    simp only [latestEnabled] at h
    cases hl : latestEnabled l with
    | none =>
      rw [hl] at h
      by_cases ha : a.state = .enabled
      · simp only [if_pos ha, Option.some.injEq] at h
        exact h ▸ List.mem_cons_self a l
      · simp [ha] at h
    | some w =>
      rw [hl] at h
      by_cases ha : a.state = .enabled
      · by_cases hid : w.id < a.id
        · simp only [if_pos ha, if_pos hid, Option.some.injEq] at h
          exact h ▸ List.mem_cons_self a l
        · simp only [if_pos ha, if_neg hid, Option.some.injEq] at h
          exact List.mem_cons_of_mem a (h ▸ ih hl)
      · simp only [if_neg ha, Option.some.injEq] at h
        exact List.mem_cons_of_mem a (h ▸ ih hl)

theorem latestEnabled_enabled : ∀ {vs : List Version} {v : Version},
    latestEnabled vs = some v → v.state = .enabled := by
  intro vs
  induction vs with
  | nil => intro v h; simp [latestEnabled] at h
  | cons a l ih =>
    intro v h
    simp only [latestEnabled] at h
    cases hl : latestEnabled l with
    | none =>
      rw [hl] at h
      by_cases ha : a.state = .enabled
      · simp only [if_pos ha, Option.some.injEq] at h
        exact h ▸ ha
      · simp [ha] at h
    | some w =>
      rw [hl] at h
      by_cases ha : a.state = .enabled
      · by_cases hid : w.id < a.id
        · simp only [if_pos ha, if_pos hid, Option.some.injEq] at h
          exact h ▸ ha
        · simp only [if_pos ha, if_neg hid, Option.some.injEq] at h
          exact h ▸ ih hl
      · simp only [if_neg ha, Option.some.injEq] at h
        exact h ▸ ih hl

theorem latestEnabled_eq_none_aux : ∀ {vs : List Version},
    latestEnabled vs = none → ∀ w ∈ vs, w.state ≠ VersionState.enabled := by
  intro vs
  induction vs with
  | nil => intro _ w hw; simp at hw
  | cons a l ih =>
    intro h w hw
    simp only [latestEnabled] at h
    cases hl : latestEnabled l with
    | none =>
      rw [hl] at h
      by_cases ha : a.state = .enabled
      · simp [ha] at h
      · rcases List.mem_cons.mp hw with hwa | hwl
        · exact hwa ▸ ha
        · exact ih hl w hwl
    | some u =>
      rw [hl] at h
      by_cases ha : a.state = .enabled
      · by_cases hid : u.id < a.id <;> simp [ha, hid] at h
      · simp [ha] at h

theorem latestEnabled_max : ∀ {vs : List Version} {v : Version},
    latestEnabled vs = some v →
    ∀ w ∈ vs, w.state = VersionState.enabled → w.id ≤ v.id := by
  intro vs
  induction vs with
  | nil => intro v h; simp [latestEnabled] at h
  | cons a l ih =>
    intro v h w hw hwst
    simp only [latestEnabled] at h
    rcases List.mem_cons.mp hw with hwa | hwl
    · subst hwa
      cases hl : latestEnabled l with
      | none =>
        rw [hl] at h
        by_cases ha : w.state = .enabled
        · simp only [if_pos ha, Option.some.injEq] at h
          exact h ▸ le_refl _
        · exact absurd hwst ha
      | some u =>
        rw [hl] at h
        by_cases ha : w.state = .enabled
        · by_cases hid : u.id < w.id
          · simp only [if_pos ha, if_pos hid, Option.some.injEq] at h
            exact h ▸ le_refl _
          · simp only [if_pos ha, if_neg hid, Option.some.injEq] at h
            have hle : w.id ≤ u.id := by omega
            exact h ▸ hle
        · exact absurd hwst ha
    · cases hl : latestEnabled l with
      | none =>
        have := (latestEnabled_eq_none_aux hl) w hwl
        exact absurd hwst this
      | some u =>
        have hu : w.id ≤ u.id := ih hl w hwl hwst
        rw [hl] at h
        by_cases ha : a.state = .enabled
        · by_cases hid : u.id < a.id
          · simp only [if_pos ha, if_pos hid, Option.some.injEq] at h
            have hle : w.id ≤ a.id := by omega
            exact h ▸ hle
          · simp only [if_pos ha, if_neg hid, Option.some.injEq] at h
            exact h ▸ hu
        · simp only [if_neg ha, Option.some.injEq] at h
          exact h ▸ hu

/-! ### Claim C1: latest resolution -/

/-- C1: for every secret and every GetSecretVersion or AccessSecretVersion
request whose version segment is the literal `latest`, the resolved version
is the one with the numerically highest id among the secret's versions whose
state is ENABLED; if the secret has no ENABLED versions (including no
versions at all), the operation returns NotFound. -/
theorem C1_latest_resolution (st : Storage) (name sname : String) (sec : Secret)
    (hparse : parseVersionName name = some (sname, "latest"))
    (hsec : lookupSecret st sname = some sec) :
    match latestEnabled sec.versions with
    | some v =>
        Storage.GetSecretVersion st name = .ok v
        ∧ Storage.AccessSecretVersion st name = .ok (versionNameOf sname v.id, v.data)
        ∧ v ∈ sec.versions ∧ v.state = VersionState.enabled
        ∧ (∀ w ∈ sec.versions, w.state = VersionState.enabled → w.id ≤ v.id)
    | none =>
        Storage.GetSecretVersion st name = .error .notFound
        ∧ Storage.AccessSecretVersion st name = .error .notFound
        ∧ (∀ w ∈ sec.versions, w.state ≠ VersionState.enabled) := by
  cases hl : latestEnabled sec.versions with
  | some v =>
    have hres : resolveVersion sec "latest" = some v := by
      simp [resolveVersion, hl]
    have hen := latestEnabled_enabled hl
    refine ⟨?_, ?_, latestEnabled_mem hl, hen, latestEnabled_max hl⟩
    · simp [Storage.GetSecretVersion, hparse, hsec, hres]
    · simp [Storage.AccessSecretVersion, hparse, hsec, hres, hen]
  | none =>
    have hres : resolveVersion sec "latest" = none := by
      simp [resolveVersion, hl]
    exact ⟨by simp [Storage.GetSecretVersion, hparse, hsec, hres],
           by simp [Storage.AccessSecretVersion, hparse, hsec, hres],
           latestEnabled_eq_none_aux hl⟩

/-- Witness for C1: in the concrete store `c1st` (versions 1 ENABLED,
2 DISABLED, 3 ENABLED), `latest` resolves to version 3. -/
theorem C1_latest_resolution_witness :
    match latestEnabled c1sec.versions with
    | some v =>
        Storage.GetSecretVersion c1st "projects/p/secrets/s/versions/latest" = .ok v
        ∧ Storage.AccessSecretVersion c1st "projects/p/secrets/s/versions/latest"
            = .ok (versionNameOf "projects/p/secrets/s" v.id, v.data)
        ∧ v ∈ c1sec.versions ∧ v.state = VersionState.enabled
        ∧ (∀ w ∈ c1sec.versions, w.state = VersionState.enabled → w.id ≤ v.id)
    | none =>
        Storage.GetSecretVersion c1st "projects/p/secrets/s/versions/latest" = .error .notFound
        ∧ Storage.AccessSecretVersion c1st "projects/p/secrets/s/versions/latest" = .error .notFound
        ∧ (∀ w ∈ c1sec.versions, w.state ≠ VersionState.enabled) :=
  C1_latest_resolution c1st "projects/p/secrets/s/versions/latest" "projects/p/secrets/s" c1sec
    (by decide) (by decide)

/-! ### Claim C5: access requires ENABLED -/

/-- C5: for every version name that resolves to an existing version,
AccessSecretVersion returns the payload if and only if that version's state
is ENABLED; a resolved DISABLED or DESTROYED version yields
FailedPrecondition, which is distinct from the NotFound returned when no
version resolves. -/
theorem C5_access_requires_enabled (st : Storage) (name sname seg : String)
    (hparse : parseVersionName name = some (sname, seg)) :
    (∀ sec v, lookupSecret st sname = some sec → resolveVersion sec seg = some v →
       ((∃ r, Storage.AccessSecretVersion st name = .ok r)
          ↔ v.state = VersionState.enabled)
       ∧ (v.state = VersionState.enabled →
            Storage.AccessSecretVersion st name = .ok (versionNameOf sname v.id, v.data))
       ∧ (v.state ≠ VersionState.enabled →
            Storage.AccessSecretVersion st name = .error .failedPrecondition))
    ∧ (∀ sec, lookupSecret st sname = some sec → resolveVersion sec seg = none →
        Storage.AccessSecretVersion st name = .error .notFound)
    ∧ (lookupSecret st sname = none →
        Storage.AccessSecretVersion st name = .error .notFound)
    ∧ ErrorCode.failedPrecondition ≠ ErrorCode.notFound := by
  refine ⟨?_, ?_, ?_, by decide⟩
  · intro sec v hsec hres
    by_cases hv : v.state = VersionState.enabled
    · have hacc : Storage.AccessSecretVersion st name
          = .ok (versionNameOf sname v.id, v.data) := by
        simp [Storage.AccessSecretVersion, hparse, hsec, hres, hv]
      exact ⟨⟨fun _ => hv, fun _ => ⟨_, hacc⟩⟩, fun _ => hacc, fun hc => absurd hv hc⟩
    · have hacc : Storage.AccessSecretVersion st name = .error .failedPrecondition := by
        simp [Storage.AccessSecretVersion, hparse, hsec, hres, hv]
      refine ⟨⟨?_, fun hc => absurd hc hv⟩, fun hc => absurd hc hv, fun _ => hacc⟩
      rintro ⟨r, hr⟩
      rw [hacc] at hr
      cases hr
  · intro sec hsec hres
    simp [Storage.AccessSecretVersion, hparse, hsec, hres]
  · intro hsec
    simp [Storage.AccessSecretVersion, hparse, hsec]

/-- Witness for C5 at the concrete store `c1st` and version segment `2`
(a DISABLED version). -/
theorem C5_access_requires_enabled_witness :
    (∀ sec v, lookupSecret c1st "projects/p/secrets/s" = some sec →
       resolveVersion sec "2" = some v →
       ((∃ r, Storage.AccessSecretVersion c1st "projects/p/secrets/s/versions/2" = .ok r)
          ↔ v.state = VersionState.enabled)
       ∧ (v.state = VersionState.enabled →
            Storage.AccessSecretVersion c1st "projects/p/secrets/s/versions/2"
              = .ok (versionNameOf "projects/p/secrets/s" v.id, v.data))
       ∧ (v.state ≠ VersionState.enabled →
            Storage.AccessSecretVersion c1st "projects/p/secrets/s/versions/2"
              = .error .failedPrecondition))
    ∧ (∀ sec, lookupSecret c1st "projects/p/secrets/s" = some sec →
        resolveVersion sec "2" = none →
        Storage.AccessSecretVersion c1st "projects/p/secrets/s/versions/2" = .error .notFound)
    ∧ (lookupSecret c1st "projects/p/secrets/s" = none →
        Storage.AccessSecretVersion c1st "projects/p/secrets/s/versions/2" = .error .notFound)
    ∧ ErrorCode.failedPrecondition ≠ ErrorCode.notFound :=
  C5_access_requires_enabled c1st "projects/p/secrets/s/versions/2" "projects/p/secrets/s" "2"
    (by decide)

/-! ### Claim C6: ListSecretVersions state filter -/

/-- C6: for every secret and every state S, ListSecretVersions with filter
`state:S` returns, across all pages, exactly the versions of the secret whose
state is S, with pagination applied to the filtered set; with no filter it
returns the versions of all states. -/
theorem C6_filter_by_state (st : Storage) (sname : String) (sec : Secret) (ps : Int)
    (S : VersionState) (hsec : lookupSecret st sname = some sec) :
    (runPaged (fun tok => Storage.ListSecretVersions st sname ps tok (filterStringOf S))
        ((sec.versions.filter (fun v => v.state == S)).length + 1) ""
      = .ok (sec.versions.filter (fun v => v.state == S)))
    ∧ (∀ v, v ∈ sec.versions.filter (fun v => v.state == S)
        ↔ v ∈ sec.versions ∧ v.state = S)
    ∧ (runPaged (fun tok => Storage.ListSecretVersions st sname ps tok "")
        (sec.versions.length + 1) "" = .ok sec.versions) := by
  have hp : parseFilter (filterStringOf S) = .ok (some S) := by
    cases S <;> rfl
  have hf1 : (fun tok => Storage.ListSecretVersions st sname ps tok (filterStringOf S))
      = fun tok => paginate (sec.versions.filter (fun v => v.state == S)) ps tok := by
    funext tok
    simp [Storage.ListSecretVersions, hsec, hp, versionMatches]
  have hf2 : (fun tok => Storage.ListSecretVersions st sname ps tok "")
      = fun tok => paginate sec.versions ps tok := by
    funext tok
    simp [Storage.ListSecretVersions, hsec, parseFilter, versionMatches]
  refine ⟨?_, ?_, ?_⟩
  · rw [hf1]
    exact runPaged_paginate_all _ ps
  · intro v
    simp [List.mem_filter]
  · rw [hf2]
    exact runPaged_paginate_all _ ps

/-- Witness for C6 at the concrete store `c1st` with state ENABLED and page
size 2. -/
theorem C6_filter_by_state_witness :
    (runPaged (fun tok =>
        Storage.ListSecretVersions c1st "projects/p/secrets/s" 2 tok "state:ENABLED")
        ((c1sec.versions.filter (fun v => v.state == VersionState.enabled)).length + 1) ""
      = .ok (c1sec.versions.filter (fun v => v.state == VersionState.enabled)))
    ∧ (∀ v, v ∈ c1sec.versions.filter (fun v => v.state == VersionState.enabled)
        ↔ v ∈ c1sec.versions ∧ v.state = VersionState.enabled)
    ∧ (runPaged (fun tok => Storage.ListSecretVersions c1st "projects/p/secrets/s" 2 tok "")
        (c1sec.versions.length + 1) "" = .ok c1sec.versions) :=
  C6_filter_by_state c1st "projects/p/secrets/s" c1sec 2 VersionState.enabled (by decide)

/-! ### Claim C2: pagination completeness -/

/-- C2: for every project (resp. secret) and every page size — where an
unspecified or zero page size defaults to 100 inside `effSize` — iterating
ListSecrets (resp. ListSecretVersions) by feeding each returned
next_page_token into the next call until an empty token yields exactly the
stored items with no duplicates and no omissions, and the returned token is
empty exactly when the enumeration is exhausted. -/
theorem C2_pagination_complete (st : Storage) (parent : String) (ps : Int) :
    (runPaged (fun tok => Storage.ListSecrets st parent ps tok)
        ((sortSecrets (secretsOfParent st parent)).length + 1) ""
      = .ok (sortSecrets (secretsOfParent st parent)))
    ∧ (sortSecrets (secretsOfParent st parent)).Perm (secretsOfParent st parent)
    ∧ (uniqueNames st → (sortSecrets (secretsOfParent st parent)).Nodup)
    ∧ (∀ offset : Nat,
        ((pageSlice (sortSecrets (secretsOfParent st parent)) (effSize ps) offset).2 = ""
          ↔ (sortSecrets (secretsOfParent st parent)).length ≤ offset + effSize ps))
    ∧ (∀ sname sec, lookupSecret st sname = some sec →
        runPaged (fun tok => Storage.ListSecretVersions st sname ps tok "")
          (sec.versions.length + 1) "" = .ok sec.versions) := by
  refine ⟨?_, ?_, ?_, ?_, ?_⟩
  · exact runPaged_paginate_all _ ps
  · exact List.perm_insertionSort _ _
  · intro hnd
    have hsub : List.Sublist ((secretsOfParent st parent).map Secret.name)
        (st.secrets.map Secret.name) :=
      List.Sublist.map _ (List.filter_sublist st.secrets)
    have hnd2 : ((secretsOfParent st parent).map Secret.name).Nodup :=
      hnd.sublist hsub
    have hnd3 : (secretsOfParent st parent).Nodup := hnd2.of_map
    exact ((List.perm_insertionSort _ _).symm).nodup hnd3
  · intro offset
    exact pageSlice_snd_empty_iff _ _ offset
  · intro sname sec hsec
    have hf : (fun tok => Storage.ListSecretVersions st sname ps tok "")
        = fun tok => paginate sec.versions ps tok := by
      funext tok
      simp [Storage.ListSecretVersions, hsec, parseFilter, versionMatches]
    rw [hf]
    exact runPaged_paginate_all _ ps

/-- Witness for C2 at the concrete store `c2st` (two secrets, one with a
version), page size 1: the full listing, a Nodup instance, and the versions
iteration for secret `b`. -/
theorem C2_pagination_complete_witness :
    (runPaged (fun tok => Storage.ListSecrets c2st "projects/q" 1 tok)
        ((sortSecrets (secretsOfParent c2st "projects/q")).length + 1) ""
      = .ok (sortSecrets (secretsOfParent c2st "projects/q")))
    ∧ (sortSecrets (secretsOfParent c2st "projects/q")).Nodup
    ∧ (runPaged (fun tok => Storage.ListSecretVersions c2st "projects/q/secrets/b" 1 tok "")
        (c2secB.versions.length + 1) "" = .ok c2secB.versions) :=
  ⟨(C2_pagination_complete c2st "projects/q" 1).1,
   (C2_pagination_complete c2st "projects/q" 1).2.2.1 (by unfold uniqueNames; decide),
   (C2_pagination_complete c2st "projects/q" 1).2.2.2.2 "projects/q/secrets/b" c2secB
     (by decide)⟩

/-! ### Claim C3: deterministic enumeration order -/

theorem sortSecrets_eq_of_perm {l1 l2 : List Secret}
    (hperm : l1.Perm l2) (hnd : (l1.map Secret.name).Nodup) :
    sortSecrets l1 = sortSecrets l2 := by
  haveI htot : IsTotal Secret (fun a b => a.name ≤ b.name) :=
    ⟨fun a b => le_total a.name b.name⟩
  haveI htr : IsTrans Secret (fun a b => a.name ≤ b.name) :=
    ⟨fun a b c hab hbc => le_trans hab hbc⟩
  haveI hanti : IsAntisymm Secret (fun a b => a.name < b.name) :=
    ⟨fun a b h1 h2 => absurd (lt_trans h1 h2) (lt_irrefl _)⟩
  have hs : (sortSecrets l1).Perm (sortSecrets l2) :=
    ((List.perm_insertionSort _ l1).trans hperm).trans
      (List.perm_insertionSort _ l2).symm
  have hle1 : (sortSecrets l1).Sorted (fun a b => a.name ≤ b.name) :=
    List.sorted_insertionSort _ l1
  have hle2 : (sortSecrets l2).Sorted (fun a b => a.name ≤ b.name) :=
    List.sorted_insertionSort _ l2
  have hnd2 : (l2.map Secret.name).Nodup := (hperm.map Secret.name).nodup hnd
  have hne1 : (sortSecrets l1).Pairwise (fun a b => a.name ≠ b.name) := by
    have := ((List.perm_insertionSort
      (fun a b : Secret => a.name ≤ b.name) l1).symm.map Secret.name).nodup hnd
    exact (List.pairwise_map.mp this)
  have hne2 : (sortSecrets l2).Pairwise (fun a b => a.name ≠ b.name) := by
    have := ((List.perm_insertionSort
      (fun a b : Secret => a.name ≤ b.name) l2).symm.map Secret.name).nodup hnd2
    exact (List.pairwise_map.mp this)
  have hlt1 : (sortSecrets l1).Sorted (fun a b => a.name < b.name) :=
    (hle1.and hne1).imp (fun h => lt_of_le_of_ne h.1 h.2)
  have hlt2 : (sortSecrets l2).Sorted (fun a b => a.name < b.name) :=
    (hle2.and hne2).imp (fun h => lt_of_le_of_ne h.1 h.2)
  exact List.eq_of_perm_of_sorted hs hlt1 hlt2

/-- C3: for a fixed store snapshot, ListSecrets is insensitive to the
in-memory arrangement of the secrets: two stores holding the same secrets
(in any order, with distinct names) answer every ListSecrets call — any page
size, any token — identically, so offset page tokens from one call stay
valid for the next.  Determinism of repeated calls on one store is the
special case `st1 = st2`. -/
theorem C3_list_secrets_deterministic (st1 st2 : Storage) (parent : String)
    (ps : Int) (tok : String)
    (hperm : st1.secrets.Perm st2.secrets)
    (hnd : (st1.secrets.map Secret.name).Nodup) :
    Storage.ListSecrets st1 parent ps tok = Storage.ListSecrets st2 parent ps tok := by
  unfold Storage.ListSecrets
  have hpf : (secretsOfParent st1 parent).Perm (secretsOfParent st2 parent) :=
    hperm.filter _
  have hndf : ((secretsOfParent st1 parent).map Secret.name).Nodup := by
    have hsub : List.Sublist ((secretsOfParent st1 parent).map Secret.name)
        (st1.secrets.map Secret.name) :=
      List.Sublist.map _ (List.filter_sublist st1.secrets)
    exact hnd.sublist hsub
  rw [sortSecrets_eq_of_perm hpf hndf]

/-- Witness for C3: the stores `c2st` and `c3st` hold the same two secrets in
opposite insertion orders and answer ListSecrets identically. -/
theorem C3_list_secrets_deterministic_witness :
    Storage.ListSecrets c2st "projects/q" 5 "" = Storage.ListSecrets c3st "projects/q" 5 "" :=
  C3_list_secrets_deterministic c2st c3st "projects/q" 5 ""
    (List.Perm.swap c2secA c2secB []) (by decide)

/-! ### Helper lemmas: store updates -/

theorem find?_map_of_pred {α : Type} (g : α → α) (p : α → Bool) (l : List α)
    (hp : ∀ a, p (g a) = p a) :
    (l.map g).find? p = (l.find? p).map g := by
  induction l with
  | nil => rfl
  | cons a t ih =>
    simp only [List.map_cons, List.find?_cons]
    rw [hp a]
    cases hpa : p a <;> simp [ih]

theorem lookupSecret_updateVersionIn (st : Storage) (s2 : String) (vid2 : Nat)
    (f : Version → Version) (sname : String) :
    lookupSecret (updateVersionIn st s2 vid2 f) sname
      = (lookupSecret st sname).map (fun sec =>
          if sec.name = s2 then
            { sec with
              versions := sec.versions.map (fun v => if v.id = vid2 then f v else v) }
          else sec) := by
  unfold lookupSecret updateVersionIn
  apply find?_map_of_pred
  intro a
  by_cases h : a.name = s2 <;> simp [h]

theorem findVersion_map (vs : List Version) (vid2 i : Nat) (f : Version → Version)
    (hf : ∀ v, (f v).id = v.id) :
    findVersion (vs.map (fun v => if v.id = vid2 then f v else v)) i
      = (findVersion vs i).map (fun v => if v.id = vid2 then f v else v) := by
  unfold findVersion
  apply find?_map_of_pred
  intro a
  by_cases h : a.id = vid2 <;> simp [h, hf]

theorem versionStateAt_some_inv {st : Storage} {sname : String} {vid : Nat}
    {s : VersionState} (h : versionStateAt st sname vid = some s) :
    ∃ sec w, lookupSecret st sname = some sec
      ∧ findVersion sec.versions vid = some w ∧ w.state = s := by
  cases hs : lookupSecret st sname with
  | none => simp [versionStateAt, hs] at h
  | some sec =>
    cases hw : findVersion sec.versions vid with
    | none => simp [versionStateAt, hs, hw] at h
    | some w =>
      simp [versionStateAt, hs, hw] at h
      exact ⟨sec, w, rfl, hw, h⟩

theorem EnableSecretVersion_ok_inv {st : Storage} {n : String} {v : Version}
    {st2 : Storage} (h : Storage.EnableSecretVersion st n = .ok (v, st2)) :
    ∃ sname seg sec i w, parseVersionName n = some (sname, seg)
      ∧ lookupSecret st sname = some sec
      ∧ parseNat seg = some i
      ∧ findVersion sec.versions i = some w
      ∧ w.state ≠ VersionState.destroyed
      ∧ v = setVersionState .enabled false w
      ∧ st2 = updateVersionIn st sname w.id (setVersionState .enabled false) := by
  cases hp : parseVersionName n with
  | none => simp [Storage.EnableSecretVersion, hp] at h
  | some pr =>
    obtain ⟨sname, seg⟩ := pr
    cases hs : lookupSecret st sname with
    | none => simp [Storage.EnableSecretVersion, hp, hs] at h
    | some sec =>
      cases hpn : parseNat seg with
      | none => simp [Storage.EnableSecretVersion, hp, hs, hpn] at h
      | some i =>
        cases hw : findVersion sec.versions i with
        | none => simp [Storage.EnableSecretVersion, hp, hs, hpn, hw] at h
        | some w =>
          by_cases hd : w.state = VersionState.destroyed
          · simp [Storage.EnableSecretVersion, hp, hs, hpn, hw, hd] at h
          · simp only [Storage.EnableSecretVersion, hp, hs, hpn, hw, Option.some_bind,
              if_neg hd, Except.ok.injEq, Prod.mk.injEq] at h
            exact ⟨sname, seg, sec, i, w, rfl, hs, hpn, hw, hd, h.1.symm, h.2.symm⟩

theorem DisableSecretVersion_ok_inv {st : Storage} {n : String} {v : Version}
    {st2 : Storage} (h : Storage.DisableSecretVersion st n = .ok (v, st2)) :
    ∃ sname seg sec i w, parseVersionName n = some (sname, seg)
      ∧ lookupSecret st sname = some sec
      ∧ parseNat seg = some i
      ∧ findVersion sec.versions i = some w
      ∧ w.state ≠ VersionState.destroyed
      ∧ v = setVersionState .disabled false w
      ∧ st2 = updateVersionIn st sname w.id (setVersionState .disabled false) := by
  cases hp : parseVersionName n with
  | none => simp [Storage.DisableSecretVersion, hp] at h
  | some pr =>
    obtain ⟨sname, seg⟩ := pr
    cases hs : lookupSecret st sname with
    | none => simp [Storage.DisableSecretVersion, hp, hs] at h
    | some sec =>
      cases hpn : parseNat seg with
      | none => simp [Storage.DisableSecretVersion, hp, hs, hpn] at h
      | some i =>
        cases hw : findVersion sec.versions i with
        | none => simp [Storage.DisableSecretVersion, hp, hs, hpn, hw] at h
        | some w =>
          by_cases hd : w.state = VersionState.destroyed
          · simp [Storage.DisableSecretVersion, hp, hs, hpn, hw, hd] at h
          · simp only [Storage.DisableSecretVersion, hp, hs, hpn, hw, Option.some_bind,
              if_neg hd, Except.ok.injEq, Prod.mk.injEq] at h
            exact ⟨sname, seg, sec, i, w, rfl, hs, hpn, hw, hd, h.1.symm, h.2.symm⟩

theorem DestroySecretVersion_ok_inv {st : Storage} {n : String} {v : Version}
    {st2 : Storage} (h : Storage.DestroySecretVersion st n = .ok (v, st2)) :
    ∃ sname seg sec i w, parseVersionName n = some (sname, seg)
      ∧ lookupSecret st sname = some sec
      ∧ parseNat seg = some i
      ∧ findVersion sec.versions i = some w
      ∧ ((w.state = VersionState.destroyed ∧ v = w ∧ st2 = st)
         ∨ (w.state ≠ VersionState.destroyed
            ∧ v = setVersionState .destroyed true w
            ∧ st2 = updateVersionIn st sname w.id (setVersionState .destroyed true))) := by
  cases hp : parseVersionName n with
  | none => simp [Storage.DestroySecretVersion, hp] at h
  | some pr =>
    obtain ⟨sname, seg⟩ := pr
    cases hs : lookupSecret st sname with
    | none => simp [Storage.DestroySecretVersion, hp, hs] at h
    | some sec =>
      cases hpn : parseNat seg with
      | none => simp [Storage.DestroySecretVersion, hp, hs, hpn] at h
      | some i =>
        cases hw : findVersion sec.versions i with
        | none => simp [Storage.DestroySecretVersion, hp, hs, hpn, hw] at h
        | some w =>
          by_cases hd : w.state = VersionState.destroyed
          · simp only [Storage.DestroySecretVersion, hp, hs, hpn, hw, Option.some_bind,
              if_pos hd, Except.ok.injEq, Prod.mk.injEq] at h
            exact ⟨sname, seg, sec, i, w, rfl, hs, hpn, hw,
              Or.inl ⟨hd, h.1.symm, h.2.symm⟩⟩
          · simp only [Storage.DestroySecretVersion, hp, hs, hpn, hw, Option.some_bind,
              if_neg hd, Except.ok.injEq, Prod.mk.injEq] at h
            exact ⟨sname, seg, sec, i, w, rfl, hs, hpn, hw,
              Or.inr ⟨hd, h.1.symm, h.2.symm⟩⟩

theorem versionStateAt_updateVersionIn_of_destroyed
    (st : Storage) (s2 : String) (vid2 : Nat) (f : Version → Version)
    (hfid : ∀ v, (f v).id = v.id)
    (sname : String) (vid : Nat)
    (h : versionStateAt st sname vid = some VersionState.destroyed)
    (hsafe : sname = s2 → vid = vid2 → ∀ v, v.state = VersionState.destroyed →
        (f v).state = VersionState.destroyed) :
    versionStateAt (updateVersionIn st s2 vid2 f) sname vid
      = some VersionState.destroyed := by
  obtain ⟨sec, w, hs, hw, hwst⟩ := versionStateAt_some_inv h
  have hsecname : sec.name = sname := by
    have := List.find?_some hs
    simpa using this
  have hwid : w.id = vid := by
    have := List.find?_some hw
    simpa using this
  have hlook := lookupSecret_updateVersionIn st s2 vid2 f sname
  rw [hs] at hlook
  by_cases hname : sec.name = s2
  · have hs2 : sname = s2 := hsecname ▸ hname
    have hfm := findVersion_map sec.versions vid2 vid f hfid
    rw [hw] at hfm
    simp only [Option.map_some'] at hfm
    by_cases hwv : w.id = vid2
    · have hfw := hsafe hs2 (by omega) w hwst
      simp [versionStateAt, hlook, hname, hfm, hwv, hfw]
    · simp [versionStateAt, hlook, hname, hfm, hwv, hwst]
  · simp [versionStateAt, hlook, hname, hw, hwst]

theorem destroyed_persists_applyVOp (st : Storage) (op : VOp) (sname : String)
    (vid : Nat) (h : versionStateAt st sname vid = some VersionState.destroyed) :
    versionStateAt (applyVOp st op) sname vid = some VersionState.destroyed := by
  cases op with
  | enable n =>
    simp only [applyVOp]
    cases hres : Storage.EnableSecretVersion st n with
    | error e => exact h
    | ok p =>
      obtain ⟨v2, st2⟩ := p
      obtain ⟨sname2, seg2, sec2, i2, w2, hp2, hs2, hpn2, hw2, hd2, hv2, hst2⟩ :=
        EnableSecretVersion_ok_inv hres
      subst hst2
      refine versionStateAt_updateVersionIn_of_destroyed st sname2 w2.id
        (setVersionState .enabled false) (fun v => rfl) sname vid h ?_
      intro hse hve v3 hv3
      exfalso
      obtain ⟨sec, w, hs, hw, hwst⟩ := versionStateAt_some_inv h
      have hw2id : w2.id = i2 := by simpa using List.find?_some hw2
      have hvi : vid = i2 := by omega
      rw [hse] at hs
      have hsec : sec = sec2 := by
        rw [hs] at hs2
        exact Option.some.inj hs2
      rw [hsec, hvi] at hw
      rw [hw] at hw2
      have hww : w = w2 := Option.some.inj hw2
      exact hd2 (by rw [← hww]; exact hwst)
  | disable n =>
    simp only [applyVOp]
    cases hres : Storage.DisableSecretVersion st n with
    | error e => exact h
    | ok p =>
      obtain ⟨v2, st2⟩ := p
      obtain ⟨sname2, seg2, sec2, i2, w2, hp2, hs2, hpn2, hw2, hd2, hv2, hst2⟩ :=
        DisableSecretVersion_ok_inv hres
      subst hst2
      refine versionStateAt_updateVersionIn_of_destroyed st sname2 w2.id
        (setVersionState .disabled false) (fun v => rfl) sname vid h ?_
      intro hse hve v3 hv3
      exfalso
      obtain ⟨sec, w, hs, hw, hwst⟩ := versionStateAt_some_inv h
      have hw2id : w2.id = i2 := by simpa using List.find?_some hw2
      have hvi : vid = i2 := by omega
      rw [hse] at hs
      have hsec : sec = sec2 := by
        rw [hs] at hs2
        exact Option.some.inj hs2
      rw [hsec, hvi] at hw
      rw [hw] at hw2
      have hww : w = w2 := Option.some.inj hw2
      exact hd2 (by rw [← hww]; exact hwst)
  | destroy n =>
    simp only [applyVOp]
    cases hres : Storage.DestroySecretVersion st n with
    | error e => exact h
    | ok p =>
      obtain ⟨v2, st2⟩ := p
      obtain ⟨sname2, seg2, sec2, i2, w2, hp2, hs2, hpn2, hw2, hrest⟩ :=
        DestroySecretVersion_ok_inv hres
      rcases hrest with ⟨hd2, hv2, hst2⟩ | ⟨hd2, hv2, hst2⟩
      · subst hst2
        exact h
      · subst hst2
        exact versionStateAt_updateVersionIn_of_destroyed st sname2 w2.id
          (setVersionState .destroyed true) (fun v => rfl) sname vid h
          (fun _ _ v3 _ => rfl)

theorem destroyed_persists_applyVOps (st : Storage) (ops : List VOp) (sname : String)
    (vid : Nat) (h : versionStateAt st sname vid = some VersionState.destroyed) :
    versionStateAt (applyVOps st ops) sname vid = some VersionState.destroyed := by
  induction ops generalizing st with
  | nil => exact h
  | cons op rest ih =>
    exact ih (applyVOp st op) (destroyed_persists_applyVOp st op sname vid h)

/-! ### Claim C4: DESTROYED is absorbing -/

/-- C4: DESTROYED is an absorbing state: destroying an already-DESTROYED
version succeeds as an idempotent no-op (same version, unchanged store),
enabling or disabling it fails with FailedPrecondition (the store is
untouched since the operation returns no new store), and no sequence of
lifecycle operations ever moves a version out of DESTROYED. -/
theorem C4_destroyed_absorbing :
    (∀ (st : Storage) (name sname seg : String) (sec : Secret) (w : Version) (i : Nat),
       parseVersionName name = some (sname, seg) →
       lookupSecret st sname = some sec →
       parseNat seg = some i →
       findVersion sec.versions i = some w →
       w.state = VersionState.destroyed →
         Storage.DestroySecretVersion st name = .ok (w, st)
         ∧ Storage.EnableSecretVersion st name = .error .failedPrecondition
         ∧ Storage.DisableSecretVersion st name = .error .failedPrecondition)
    ∧ (∀ (st : Storage) (ops : List VOp) (sname : String) (vid : Nat),
         versionStateAt st sname vid = some VersionState.destroyed →
         versionStateAt (applyVOps st ops) sname vid = some VersionState.destroyed) := by
  constructor
  · intro st name sname seg sec w i hp hs hpn hw hd
    refine ⟨?_, ?_, ?_⟩
    · simp [Storage.DestroySecretVersion, hp, hs, hpn, hw, hd]
    · simp [Storage.EnableSecretVersion, hp, hs, hpn, hw, hd]
    · simp [Storage.DisableSecretVersion, hp, hs, hpn, hw, hd]
  · exact fun st ops sname vid h => destroyed_persists_applyVOps st ops sname vid h

/-- Witness for C4 at the concrete store `c4st` whose only version is
DESTROYED, including a two-operation sequence (enable then destroy). -/
theorem C4_destroyed_absorbing_witness :
    (Storage.DestroySecretVersion c4st "projects/p/secrets/d/versions/1"
        = .ok (c4ver, c4st)
     ∧ Storage.EnableSecretVersion c4st "projects/p/secrets/d/versions/1"
        = .error .failedPrecondition
     ∧ Storage.DisableSecretVersion c4st "projects/p/secrets/d/versions/1"
        = .error .failedPrecondition)
    ∧ versionStateAt
        (applyVOps c4st
          [VOp.enable "projects/p/secrets/d/versions/1",
           VOp.destroy "projects/p/secrets/d/versions/1"])
        "projects/p/secrets/d" 1
      = some VersionState.destroyed :=
  ⟨C4_destroyed_absorbing.1 c4st "projects/p/secrets/d/versions/1" "projects/p/secrets/d"
      "1" c4sec c4ver 1 (by decide) (by decide) (by decide) (by decide) (by decide),
   C4_destroyed_absorbing.2 c4st
      [VOp.enable "projects/p/secrets/d/versions/1",
       VOp.destroy "projects/p/secrets/d/versions/1"]
      "projects/p/secrets/d" 1 (by decide)⟩

/-! ### Helper lemmas: uniqueness preservation -/

theorem CreateSecret_ok_inv {st : Storage} {p sid : String} {lab ann : Option StrMap}
    {sec : Secret} {st2 : Storage}
    (h : Storage.CreateSecret st p sid lab ann = .ok (sec, st2)) :
    lookupSecret st (secretNameOf p sid) = none
    ∧ sec.name = secretNameOf p sid
    ∧ st2.secrets = st.secrets ++ [sec] := by
  unfold Storage.CreateSecret at h
  by_cases hemp : (p = "" || sid = "") = true
  · rw [if_pos hemp] at h; cases h
  · rw [if_neg hemp] at h
    cases hl : lookupSecret st (secretNameOf p sid) with
    | some s0 => simp [hl] at h
    | none =>
      simp only [hl, Except.ok.injEq, Prod.mk.injEq] at h
      refine ⟨rfl, ?_, ?_⟩
      · rw [← h.1]
      · rw [← h.2, ← h.1]

theorem uniqueNames_map_of_name_eq (l : List Secret) (g : Secret → Secret)
    (hg : ∀ s ∈ l, (g s).name = s.name) (hu : (l.map Secret.name).Nodup) :
    ((l.map g).map Secret.name).Nodup := by
  have heq : (l.map g).map Secret.name = l.map Secret.name := by
    rw [List.map_map]
    exact List.map_congr_left (fun a ha => hg a ha)
  rw [heq]
  exact hu

theorem uniqueNames_CreateSecret {st : Storage} {p sid : String} {lab ann : Option StrMap}
    {sec : Secret} {st2 : Storage}
    (h : Storage.CreateSecret st p sid lab ann = .ok (sec, st2))
    (hu : uniqueNames st) : uniqueNames st2 := by
  obtain ⟨hl, hn, hsecs⟩ := CreateSecret_ok_inv h
  unfold uniqueNames
  rw [hsecs, List.map_append]
  rw [List.nodup_append]
  refine ⟨hu, by simp, ?_⟩
  intro a ha hb
  simp only [List.map_cons, List.map_nil, List.mem_singleton] at hb
  subst hb
  obtain ⟨s0, hs0, hname⟩ := List.mem_map.mp ha
  have := List.find?_eq_none.mp hl s0 hs0
  rw [hname, hn] at this
  simp at this

theorem UpdateSecret_ok_inv {st : Storage} {name : String} {lab ann : Option StrMap}
    {sec2 : Secret} {st2 : Storage}
    (h : Storage.UpdateSecret st name lab ann = .ok (sec2, st2)) :
    ∃ sec, lookupSecret st name = some sec
      ∧ sec2 = { sec with labels := lab.or sec.labels, annots := ann.or sec.annots }
      ∧ st2 = { st with
          secrets := st.secrets.map (fun s => if s.name = name then sec2 else s) } := by
  cases hl : lookupSecret st name with
  | none => simp [Storage.UpdateSecret, hl] at h
  | some sec =>
    simp only [Storage.UpdateSecret, hl, Except.ok.injEq, Prod.mk.injEq] at h
    refine ⟨sec, rfl, h.1.symm, ?_⟩
    rw [← h.2]
    simp only [h.1]

theorem lookupSecret_name {st : Storage} {name : String} {sec : Secret}
    (h : lookupSecret st name = some sec) : sec.name = name := by
  have := List.find?_some h
  simpa using this

theorem uniqueNames_UpdateSecret {st : Storage} {name : String} {lab ann : Option StrMap}
    {sec2 : Secret} {st2 : Storage}
    (h : Storage.UpdateSecret st name lab ann = .ok (sec2, st2))
    (hu : uniqueNames st) : uniqueNames st2 := by
  obtain ⟨sec, hl, hsec2, hst2⟩ := UpdateSecret_ok_inv h
  have hname2 : sec2.name = sec.name := by rw [hsec2]
  have hn := lookupSecret_name hl
  subst hst2
  unfold uniqueNames
  apply uniqueNames_map_of_name_eq
  · intro s _
    by_cases hs : s.name = name
    · simp [hs, hname2, hn]
    · simp [hs]
  · exact hu

theorem DeleteSecret_ok_inv {st : Storage} {name : String} {st2 : Storage}
    (h : Storage.DeleteSecret st name = .ok st2) :
    st2.secrets = st.secrets.filter (fun s => !(s.name == name)) := by
  cases hl : lookupSecret st name with
  | none => simp [Storage.DeleteSecret, hl] at h
  | some sec =>
    simp only [Storage.DeleteSecret, hl, Except.ok.injEq] at h
    rw [← h]

theorem uniqueNames_DeleteSecret {st : Storage} {name : String} {st2 : Storage}
    (h : Storage.DeleteSecret st name = .ok st2)
    (hu : uniqueNames st) : uniqueNames st2 := by
  have hsecs := DeleteSecret_ok_inv h
  unfold uniqueNames
  rw [hsecs]
  exact hu.sublist (List.Sublist.map _ (List.filter_sublist st.secrets))

theorem AddSecretVersion_ok_inv {st : Storage} {parent payload : String}
    {v : Version} {st2 : Storage}
    (h : Storage.AddSecretVersion st parent payload = .ok (v, st2)) :
    ∃ sec, lookupSecret st parent = some sec
      ∧ v = { id := sec.nextVersion + 1, state := .enabled, data := payload, createTime := st.clock }
      ∧ st2.secrets = st.secrets.map (fun s =>
          if s.name = parent then
            { sec with versions := sec.versions ++ [v], nextVersion := sec.nextVersion + 1 }
          else s) := by
  cases hl : lookupSecret st parent with
  | none => simp [Storage.AddSecretVersion, hl] at h
  | some sec =>
    simp only [Storage.AddSecretVersion, hl, Except.ok.injEq, Prod.mk.injEq] at h
    refine ⟨sec, rfl, h.1.symm, ?_⟩
    rw [← h.2]
    simp only [h.1]

theorem uniqueNames_AddSecretVersion {st : Storage} {parent payload : String}
    {v : Version} {st2 : Storage}
    (h : Storage.AddSecretVersion st parent payload = .ok (v, st2))
    (hu : uniqueNames st) : uniqueNames st2 := by
  obtain ⟨sec, hl, hv, hsecs⟩ := AddSecretVersion_ok_inv h
  have hn := lookupSecret_name hl
  unfold uniqueNames
  rw [hsecs]
  apply uniqueNames_map_of_name_eq
  · intro s _
    by_cases hs : s.name = parent
    · simp [hs, hn]
    · simp [hs]
  · exact hu

theorem uniqueNames_updateVersionIn (st : Storage) (sname : String) (vid : Nat)
    (f : Version → Version) (hu : uniqueNames st) :
    uniqueNames (updateVersionIn st sname vid f) := by
  unfold uniqueNames updateVersionIn
  apply uniqueNames_map_of_name_eq
  · intro s _
    by_cases hs : s.name = sname
    · simp [hs]
    · simp [hs]
  · exact hu

theorem uniqueNames_EnableSecretVersion {st : Storage} {n : String} {v : Version}
    {st2 : Storage} (h : Storage.EnableSecretVersion st n = .ok (v, st2))
    (hu : uniqueNames st) : uniqueNames st2 := by
  obtain ⟨_, _, _, _, _, _, _, _, _, _, _, hst2⟩ := EnableSecretVersion_ok_inv h
  subst hst2
  exact uniqueNames_updateVersionIn _ _ _ _ hu

theorem uniqueNames_DisableSecretVersion {st : Storage} {n : String} {v : Version}
    {st2 : Storage} (h : Storage.DisableSecretVersion st n = .ok (v, st2))
    (hu : uniqueNames st) : uniqueNames st2 := by
  obtain ⟨_, _, _, _, _, _, _, _, _, _, _, hst2⟩ := DisableSecretVersion_ok_inv h
  subst hst2
  exact uniqueNames_updateVersionIn _ _ _ _ hu

theorem uniqueNames_DestroySecretVersion {st : Storage} {n : String} {v : Version}
    {st2 : Storage} (h : Storage.DestroySecretVersion st n = .ok (v, st2))
    (hu : uniqueNames st) : uniqueNames st2 := by
  obtain ⟨_, _, _, _, _, _, _, _, _, hrest⟩ := DestroySecretVersion_ok_inv h
  rcases hrest with ⟨_, _, hst2⟩ | ⟨_, _, hst2⟩
  · subst hst2; exact hu
  · subst hst2; exact uniqueNames_updateVersionIn _ _ _ _ hu

theorem uniqueNames_emptyStorage : uniqueNames emptyStorage := by
  unfold uniqueNames emptyStorage
  simp

theorem Reachable_uniqueNames : ∀ {st : Storage}, Reachable st → uniqueNames st := by
  intro st h
  induction h with
  | empty => exact uniqueNames_emptyStorage
  | create _ _ _ _ _ _ _ _ hok ih => exact uniqueNames_CreateSecret hok ih
  | update _ _ _ _ _ _ _ hok ih => exact uniqueNames_UpdateSecret hok ih
  | del _ _ _ _ hok ih => exact uniqueNames_DeleteSecret hok ih
  | addVersion _ _ _ _ _ _ hok ih => exact uniqueNames_AddSecretVersion hok ih
  | enable _ _ _ _ _ hok ih => exact uniqueNames_EnableSecretVersion hok ih
  | disable _ _ _ _ _ hok ih => exact uniqueNames_DisableSecretVersion hok ih
  | destroy _ _ _ _ _ hok ih => exact uniqueNames_DestroySecretVersion hok ih

/-! ### Claim C7: secret-name uniqueness -/

/-- C7: a second CreateSecret with the same `(project, secret_id)` pair fails
with AlreadyExists — and, the operation returning only an error, the existing
record is untouched — and the `(project, secret_id)` uniqueness invariant
holds in every reachable store state. -/
theorem C7_create_secret_unique :
    (∀ (st : Storage) (parent secretId : String) (lab ann : Option StrMap) (sec : Secret),
       parent ≠ "" → secretId ≠ "" →
       lookupSecret st (secretNameOf parent secretId) = some sec →
       Storage.CreateSecret st parent secretId lab ann = .error .alreadyExists)
    ∧ (∀ st : Storage, Reachable st → uniqueNames st) := by
  constructor
  · intro st parent secretId lab ann sec hp hsid hl
    simp [Storage.CreateSecret, hp, hsid, hl]
  · exact fun st h => Reachable_uniqueNames h

/-- Witness for C7: re-creating secret `a` of project `q` in the concrete
store `c2st` fails with AlreadyExists, and the store reached by one
CreateSecret from the fresh store has unique names. -/
theorem C7_create_secret_unique_witness :
    Storage.CreateSecret c2st "projects/q" "a" none none = .error .alreadyExists
    ∧ uniqueNames c7st :=
  ⟨C7_create_secret_unique.1 c2st "projects/q" "a" none none c2secA
      (by decide) (by decide) (by decide),
   C7_create_secret_unique.2 c7st
     (Reachable.create emptyStorage "projects/q" "a" none none c2secA c7st
       Reachable.empty (by rfl))⟩

/-! ### Claim C8: update-mask frame -/

/-- Counterexample to C8 as stated: in `c8st` the secret holds labels
`[(env, dev)]`; an UpdateSecret whose mask names `labels` while the request
carries no label map (`none`, Go nil) succeeds and leaves the stored labels
untouched — the masked field is not replaced by the request's (empty) map,
so "exactly the fields named in the update_mask are replaced" fails at this
input. -/
theorem C8_counterexample :
    Server.UpdateSecret c8srv c8ctx c8req = .ok (c8sec, c8st)
    ∧ c8req.updateMask = some ["labels"]
    ∧ c8req.secret.map SecretPB.labels = some none
    ∧ c8sec.labels = some [("env", "dev")]
    ∧ some [("env", "dev")] ≠ (none : Option StrMap) := by
  refine ⟨rfl, rfl, rfl, rfl, by simp⟩

/-- C8 amended: for every UpdateSecret on an existing secret, a field named
in the mask is replaced wholesale exactly when the request supplies a map for
it (a nil map leaves the field unchanged); fields not named in the mask, the
name, the creation timestamp and all versions are unchanged; other secrets
are untouched; unknown mask paths are silently ignored. -/
theorem C8_update_mask_frame (srv : Server) (ctx : Ctx) (secPB : SecretPB)
    (mask : List String) (sec sec2 : Secret) (st2 : Storage)
    (hcli : srv.iamClient = none)
    (hsec : lookupSecret srv.storage secPB.name = some sec)
    (hok : Server.UpdateSecret srv ctx { secret := some secPB, updateMask := some mask }
        = .ok (sec2, st2)) :
    sec2.labels = ((parseUpdateMask mask secPB.labels secPB.annots).1).or sec.labels
    ∧ sec2.annots = ((parseUpdateMask mask secPB.labels secPB.annots).2).or sec.annots
    ∧ sec2.name = sec.name
    ∧ sec2.createTime = sec.createTime
    ∧ sec2.versions = sec.versions
    ∧ sec2.nextVersion = sec.nextVersion
    ∧ st2.clock = srv.storage.clock
    ∧ st2.secrets = srv.storage.secrets.map
        (fun s => if s.name = secPB.name then sec2 else s)
    ∧ (∀ s ∈ srv.storage.secrets, s.name ≠ secPB.name → s ∈ st2.secrets)
    ∧ (∀ (paths : List String) (lab0 ann0 : Option StrMap) (p : String),
        p ≠ "labels" → p ≠ "annotations" →
        parseUpdateMask (p :: paths) lab0 ann0 = parseUpdateMask paths lab0 ann0) := by
  by_cases hname : secPB.name = ""
  · simp [Server.UpdateSecret, hname] at hok
  · simp only [Server.UpdateSecret, hname, checkPermission, hcli, if_neg hname] at hok
    obtain ⟨sec', hl', hsec2, hst2⟩ := UpdateSecret_ok_inv hok
    rw [hl'] at hsec
    have hss : sec' = sec := Option.some.inj hsec
    subst hss
    subst hst2
    refine ⟨by rw [hsec2], by rw [hsec2], by rw [hsec2], by rw [hsec2],
            by rw [hsec2], by rw [hsec2], rfl, rfl, ?_, ?_⟩
    · intro s hs hne
      have hmem := List.mem_map_of_mem (fun s => if s.name = secPB.name then sec2 else s) hs
      simp only [if_neg hne] at hmem
      exact hmem
    · intro paths lab0 ann0 p hp1 hp2
      simp [parseUpdateMask, hp1, hp2]

/-- Witness for the amended C8 at the concrete input of the counterexample:
the masked-but-nil labels leave `c8sec` unchanged and the store intact. -/
theorem C8_update_mask_frame_witness :
    c8sec.labels = ((parseUpdateMask ["labels"] c8secPB.labels c8secPB.annots).1).or c8sec.labels
    ∧ c8sec.annots = ((parseUpdateMask ["labels"] c8secPB.labels c8secPB.annots).2).or c8sec.annots
    ∧ c8sec.name = c8sec.name
    ∧ c8sec.createTime = c8sec.createTime
    ∧ c8sec.versions = c8sec.versions
    ∧ c8sec.nextVersion = c8sec.nextVersion
    ∧ c8st.clock = c8srv.storage.clock
    ∧ c8st.secrets = c8srv.storage.secrets.map
        (fun s => if s.name = c8secPB.name then c8sec else s)
    ∧ (∀ s ∈ c8srv.storage.secrets, s.name ≠ c8secPB.name → s ∈ c8st.secrets)
    ∧ (∀ (paths : List String) (lab0 ann0 : Option StrMap) (p : String),
        p ≠ "labels" → p ≠ "annotations" →
        parseUpdateMask (p :: paths) lab0 ann0 = parseUpdateMask paths lab0 ann0) :=
  C8_update_mask_frame c8srv c8ctx c8secPB ["labels"] c8sec c8sec c8st rfl (by rfl) (by rfl)

/-! ### Claim C10: unmapped operations skip authorization -/

/-- C10: checkPermission allows every request when the operation has no entry
in the permission table — whatever the identity, resource or configured
oracle — and likewise whenever the IAM client is nil. -/
theorem C10_unmapped_operations_allowed (srv : Server) (ctx : Ctx)
    (operation resource : String) :
    (GetPermission operation = none →
       checkPermission srv ctx operation resource = .ok ())
    ∧ (srv.iamClient = none →
       checkPermission srv ctx operation resource = .ok ()) := by
  constructor
  · intro hg
    unfold checkPermission
    cases hc : srv.iamClient with
    | none => rfl
    | some client => simp [hg]
  · intro hn
    simp [checkPermission, hn]

/-- Witness for C10: `SetIamPolicy` is not in the permission table, so the
always-denying server `c9srv` still allows it; and a nil-client server allows
the mapped `GetSecret`. -/
theorem C10_unmapped_operations_allowed_witness :
    GetPermission "SetIamPolicy" = none
    ∧ checkPermission c9srv c8ctx "SetIamPolicy" "projects/p" = .ok ()
    ∧ checkPermission c8srv c8ctx "GetSecret" "projects/p/secrets/u" = .ok () :=
  ⟨by rfl,
   (C10_unmapped_operations_allowed c9srv c8ctx "SetIamPolicy" "projects/p").1 (by rfl),
   (C10_unmapped_operations_allowed c8srv c8ctx "GetSecret" "projects/p/secrets/u").2 rfl⟩

/-! ### Claim C9: validation / authorization / store ordering -/

/-- Counterexample to C9 as stated: an UpdateSecret that is both malformed
(missing the required update_mask) and unauthorized (always-denying oracle)
yields PermissionDenied, not InvalidArgument — the update_mask requirement is
checked only after the authorization check in `Server.UpdateSecret`. -/
theorem C9_counterexample :
    Server.UpdateSecret c9srv c8ctx { secret := some c8secPB, updateMask := none }
      = .error .permissionDenied
    ∧ Except.error ErrorCode.permissionDenied
      ≠ (.error .invalidArgument : Res (Secret × Storage)) := by
  refine ⟨rfl, ?_⟩
  intro hc
  injection hc with h2
  cases h2

/-- C9 amended: required-field validation precedes the authorization check
for every dispatched operation and every required field except UpdateSecret's
update_mask, which is validated only after authorization; a request that is
both malformed and unauthorized therefore yields InvalidArgument — except an
UpdateSecret whose only defect is the missing update_mask, which yields the
authorization error — and an authorization denial or oracle failure
short-circuits the operation before the store call (the operation returns the
bare error, producing no store mutation). -/
theorem C9_validation_authz_order :
    (∀ (srv : Server) (ctx : Ctx) (req : ListSecretsRequest), req.parent = "" →
        Server.ListSecrets srv ctx req = .error .invalidArgument)
    ∧ (∀ (srv : Server) (ctx : Ctx) (req : CreateSecretRequest), req.parent = "" →
        Server.CreateSecret srv ctx req = .error .invalidArgument)
    ∧ (∀ (srv : Server) (ctx : Ctx) (req : CreateSecretRequest), req.secretId = "" →
        Server.CreateSecret srv ctx req = .error .invalidArgument)
    ∧ (∀ (srv : Server) (ctx : Ctx) (req : CreateSecretRequest), req.secret = none →
        Server.CreateSecret srv ctx req = .error .invalidArgument)
    ∧ (∀ (srv : Server) (ctx : Ctx) (req : GetSecretRequest), req.name = "" →
        Server.GetSecret srv ctx req = .error .invalidArgument)
    ∧ (∀ (srv : Server) (ctx : Ctx) (req : UpdateSecretRequest), req.secret = none →
        Server.UpdateSecret srv ctx req = .error .invalidArgument)
    ∧ (∀ (srv : Server) (ctx : Ctx) (req : UpdateSecretRequest) (secPB : SecretPB),
        req.secret = some secPB → secPB.name = "" →
        Server.UpdateSecret srv ctx req = .error .invalidArgument)
    ∧ (∀ (srv : Server) (ctx : Ctx) (req : DeleteSecretRequest), req.name = "" →
        Server.DeleteSecret srv ctx req = .error .invalidArgument)
    ∧ (∀ (srv : Server) (ctx : Ctx) (req : AddSecretVersionRequest), req.parent = "" →
        Server.AddSecretVersion srv ctx req = .error .invalidArgument)
    ∧ (∀ (srv : Server) (ctx : Ctx) (req : AddSecretVersionRequest), req.payload = none →
        Server.AddSecretVersion srv ctx req = .error .invalidArgument)
    ∧ (∀ (srv : Server) (ctx : Ctx) (req : GetSecretVersionRequest), req.name = "" →
        Server.GetSecretVersion srv ctx req = .error .invalidArgument)
    ∧ (∀ (srv : Server) (ctx : Ctx) (req : AccessSecretVersionRequest), req.name = "" →
        Server.AccessSecretVersion srv ctx req = .error .invalidArgument)
    ∧ (∀ (srv : Server) (ctx : Ctx) (req : ListSecretVersionsRequest), req.parent = "" →
        Server.ListSecretVersions srv ctx req = .error .invalidArgument)
    ∧ (∀ (srv : Server) (ctx : Ctx) (req : EnableSecretVersionRequest), req.name = "" →
        Server.EnableSecretVersion srv ctx req = .error .invalidArgument)
    ∧ (∀ (srv : Server) (ctx : Ctx) (req : DisableSecretVersionRequest), req.name = "" →
        Server.DisableSecretVersion srv ctx req = .error .invalidArgument)
    ∧ (∀ (srv : Server) (ctx : Ctx) (req : DestroySecretVersionRequest), req.name = "" →
        Server.DestroySecretVersion srv ctx req = .error .invalidArgument)
    ∧ (∀ (srv : Server) (ctx : Ctx) (req : CreateSecretRequest) (secPB : SecretPB)
        (e : ErrorCode), req.parent ≠ "" → req.secretId ≠ "" → req.secret = some secPB →
        checkPermission srv ctx "CreateSecret" (NormalizeParentForCreate req.parent)
          = .error e →
        Server.CreateSecret srv ctx req = .error e)
    ∧ (∀ (srv : Server) (ctx : Ctx) (secPB : SecretPB) (m : Option (List String))
        (e : ErrorCode), secPB.name ≠ "" →
        checkPermission srv ctx "UpdateSecret" (NormalizeSecretResource secPB.name)
          = .error e →
        Server.UpdateSecret srv ctx { secret := some secPB, updateMask := m } = .error e)
    ∧ (∀ (srv : Server) (ctx : Ctx) (req : DeleteSecretRequest) (e : ErrorCode),
        req.name ≠ "" →
        checkPermission srv ctx "DeleteSecret" (NormalizeSecretResource req.name)
          = .error e →
        Server.DeleteSecret srv ctx req = .error e)
    ∧ (∀ (srv : Server) (ctx : Ctx) (req : AddSecretVersionRequest) (p : String)
        (e : ErrorCode), req.parent ≠ "" → req.payload = some p →
        checkPermission srv ctx "AddSecretVersion" (NormalizeSecretResource req.parent)
          = .error e →
        Server.AddSecretVersion srv ctx req = .error e)
    ∧ (∀ (srv : Server) (ctx : Ctx) (req : EnableSecretVersionRequest) (e : ErrorCode),
        req.name ≠ "" →
        checkPermission srv ctx "EnableSecretVersion" (NormalizeSecretVersionResource req.name)
          = .error e →
        Server.EnableSecretVersion srv ctx req = .error e)
    ∧ (∀ (srv : Server) (ctx : Ctx) (req : DisableSecretVersionRequest) (e : ErrorCode),
        req.name ≠ "" →
        checkPermission srv ctx "DisableSecretVersion" (NormalizeSecretVersionResource req.name)
          = .error e →
        Server.DisableSecretVersion srv ctx req = .error e)
    ∧ (∀ (srv : Server) (ctx : Ctx) (req : DestroySecretVersionRequest) (e : ErrorCode),
        req.name ≠ "" →
        checkPermission srv ctx "DestroySecretVersion" (NormalizeSecretVersionResource req.name)
          = .error e →
        Server.DestroySecretVersion srv ctx req = .error e) := by
  refine ⟨?_, ?_, ?_, ?_, ?_, ?_, ?_, ?_, ?_, ?_, ?_, ?_, ?_, ?_, ?_, ?_, ?_, ?_, ?_, ?_,
    ?_, ?_, ?_⟩
  · intro srv ctx req h; simp [Server.ListSecrets, h]
  · intro srv ctx req h; simp [Server.CreateSecret, h]
  · intro srv ctx req h; simp [Server.CreateSecret, h]
  · intro srv ctx req h; simp [Server.CreateSecret, h]
  · intro srv ctx req h; simp [Server.GetSecret, h]
  · intro srv ctx req h; simp [Server.UpdateSecret, h]
  · intro srv ctx req secPB hs h; simp [Server.UpdateSecret, hs, h]
  · intro srv ctx req h; simp [Server.DeleteSecret, h]
  · intro srv ctx req h; simp [Server.AddSecretVersion, h]
  · intro srv ctx req h; simp [Server.AddSecretVersion, h]
  · intro srv ctx req h; simp [Server.GetSecretVersion, h]
  · intro srv ctx req h; simp [Server.AccessSecretVersion, h]
  · intro srv ctx req h; simp [Server.ListSecretVersions, h]
  · intro srv ctx req h; simp [Server.EnableSecretVersion, h]
  · intro srv ctx req h; simp [Server.DisableSecretVersion, h]
  · intro srv ctx req h; simp [Server.DestroySecretVersion, h]
  · intro srv ctx req secPB e h1 h2 h3 hchk
    simp [Server.CreateSecret, h1, h2, h3, hchk]
  · intro srv ctx secPB m e h1 hchk
    simp [Server.UpdateSecret, h1, hchk]
  · intro srv ctx req e h1 hchk
    simp [Server.DeleteSecret, h1, hchk]
  · intro srv ctx req p e h1 h2 hchk
    simp [Server.AddSecretVersion, h1, h2, hchk]
  · intro srv ctx req e h1 hchk
    simp [Server.EnableSecretVersion, h1, hchk]
  · intro srv ctx req e h1 hchk
    simp [Server.DisableSecretVersion, h1, hchk]
  · intro srv ctx req e h1 hchk
    simp [Server.DestroySecretVersion, h1, hchk]

/-- Witness for the amended C9: with the always-denying server `c9srv`, a
CreateSecret missing its parent still fails InvalidArgument (validation
precedes authorization), while a well-named UpdateSecret without a mask and a
fully-valid CreateSecret both stop at PermissionDenied before the store
call. -/
theorem C9_validation_authz_order_witness :
    Server.CreateSecret c9srv c8ctx { parent := "", secretId := "s", secret := none }
      = .error .invalidArgument
    ∧ Server.UpdateSecret c9srv c8ctx { secret := some c8secPB, updateMask := none }
      = .error .permissionDenied
    ∧ Server.CreateSecret c9srv c8ctx
        { parent := "projects/p", secretId := "s2", secret := some c8secPB }
      = .error .permissionDenied := by
  obtain ⟨h1, h2, h3, h4, h5, h6, h7, h8, h9, h10, h11, h12, h13, h14, h15, h16,
    h17, h18, h19, h20, h21, h22, h23⟩ := C9_validation_authz_order
  refine ⟨h2 c9srv c8ctx { parent := "", secretId := "s", secret := none } rfl,
    h18 c9srv c8ctx c8secPB none ErrorCode.permissionDenied (by decide) (by rfl),
    h17 c9srv c8ctx
      { parent := "projects/p", secretId := "s2", secret := some c8secPB } c8secPB
      ErrorCode.permissionDenied (by decide) (by decide) rfl (by rfl)⟩
